import Mathlib

/-!
# Verification of the school-copilot retrieval and isolation core

Shallow embedding of `backend/services/embedding_service.py`,
`backend/services/class_isolation_service.py`,
`backend/services/rag_service.py` and the sentence splitter of
`backend/services/document_processor.py`.

Modelling conventions:
* Floating-point embedding vectors are modelled as lists of rationals
  (`Vec := List ℚ`); inner products are exact.  The L2 normalisation the
  source applies to stored vectors and to the query is elided: it rescales
  every score by a positive constant, and no property proved below depends
  on the numeric value or relative order of scores across vectors.
* FAISS's `IndexFlatIP` is modelled as the list of its vectors; `index.add`
  is list append, `index.ntotal` is the list length, and
  `index.search(q, n)` returns the `n` best positions by descending inner
  product.  FAISS's tie order is implementation-defined; the model fixes
  the stable order given by a stable sort, which no theorem depends on.
* Python dicts keyed by class id are association lists (`alookup`/`aset`).
* Calls into the external sentence-transformer model are a parameter
  `embed : String → Option Vec`; `none` models the exception path of
  `EmbeddingService.generate_embeddings` (model unavailable), which the
  services catch and turn into a `False`/error result.
* Disk persistence (`save_index`/`load_index`), logging and wall-clock
  processing times are elided (I/O and real time).
-/

set_option maxHeartbeats 1000000

namespace SchoolCopilot

/-- A numeric embedding vector (source: a row of a numpy float array). -/
abbrev Vec := List ℚ

/-- Inner product of two vectors (FAISS `IndexFlatIP` score). -/
def dot (u v : Vec) : ℚ :=
  (List.zipWith (fun a b => a * b) u v).sum

/-- Association-list read, modelling a Python dict lookup `d[k]` /
`k in d` for dicts keyed by class id. -/
def alookup {α : Type} (l : List (String × α)) (k : String) : Option α :=
  (l.find? (fun p => decide (p.1 = k))).map Prod.snd

/-- Association-list write, modelling Python dict assignment `d[k] = v`
(replace the binding if present, else append). -/
def aset {α : Type} : List (String × α) → String → α → List (String × α)
  | [], k, v => [(k, v)]
  | p :: t, k, v => if p.1 = k then (k, v) :: t else p :: aset t k v

/-- Stable sort of `(item, score)` pairs by descending score.  Models both
the order in which FAISS returns search hits and the Python stable
`list.sort(key=lambda x: x[1], reverse=True)`. -/
def sortByScoreDesc {β : Type} (l : List (β × ℚ)) : List (β × ℚ) :=
  List.insertionSort (fun a b => b.2 ≤ a.2) l

/-- In-memory state of `VectorDatabase` (embedding_service.py):
`indexes` holds one FAISS index per class id (modelled as the list of its
vectors), `chunk_mappings` the parallel position → chunk-id list. -/
structure VectorDatabase where
  indexes : List (String × List Vec)
  chunk_mappings : List (String × List String)
deriving DecidableEq

/-- A fresh `VectorDatabase()` (both dicts empty). -/
def VectorDatabase.empty : VectorDatabase := ⟨[], []⟩

/-- `VectorDatabase.create_class_index`: installs an empty index and an
empty chunk mapping for the class, overwriting any existing ones. -/
def VectorDatabase.create_class_index (db : VectorDatabase) (class_id : String) :
    Bool × VectorDatabase :=
  (true, { indexes := aset db.indexes class_id [],
           chunk_mappings := aset db.chunk_mappings class_id [] })

/-- `VectorDatabase.add_embeddings`: lazily creates the class index, then
appends the vectors to the index (`index.add`) and afterwards appends the
chunk ids to the mapping (`extend`), mirroring the source's mutation
order.  The source's `astype(float32)` cast and row normalisation are
elided (see the header comment). -/
def VectorDatabase.add_embeddings (db : VectorDatabase) (class_id : String)
    (embeddings : List Vec) (chunk_ids : List String) : Bool × VectorDatabase :=
  let db0 := if (alookup db.indexes class_id).isNone
             then (db.create_class_index class_id).2 else db
  match alookup db0.indexes class_id with
  | none => (false, db0)
  | some index =>
    let db1 : VectorDatabase :=
      { db0 with indexes := aset db0.indexes class_id (index ++ embeddings) }
    match alookup db1.chunk_mappings class_id with
    | none => (false, db1)
    | some mapping =>
      let db2 : VectorDatabase :=
        { db1 with chunk_mappings := aset db1.chunk_mappings class_id (mapping ++ chunk_ids) }
      (true, db2)

/-- Model of FAISS `index.search(q, n)` on a flat inner-product index:
score every stored vector against the query, return the best `n`
positions with their scores, in descending score order. -/
def faissSearch (vecs : List Vec) (q : Vec) (n : Nat) : List (Nat × ℚ) :=
  (sortByScoreDesc ((vecs.enum).map (fun p => (p.1, dot q p.2)))).take n

/-- `VectorDatabase.search`: empty result when the class has no index, when
the mapping is missing (the source's `KeyError` is caught and turned into
`[]`), or when the index is empty; otherwise `k` is clamped to `ntotal`,
the raw hits are fetched, and each hit position is translated through the
chunk mapping — positions outside the mapping are silently skipped. -/
def VectorDatabase.search (db : VectorDatabase) (class_id : String)
    (query_embedding : Vec) (k : Nat) : List (String × ℚ) :=
  match alookup db.indexes class_id with
  | none => []
  | some index =>
    match alookup db.chunk_mappings class_id with
    | none => []
    | some chunk_mapping =>
      if index.length = 0 then []
      else
        (faissSearch index query_embedding (min k index.length)).filterMap
          (fun p => if h : p.1 < chunk_mapping.length
                    then some (chunk_mapping.get ⟨p.1, h⟩, p.2)
                    else none)

/-- `VectorDatabase.remove_document_embeddings`: success without change if
the class has no index; otherwise the positions whose chunk id is in
`chunk_ids` are dropped from the mapping.  The FAISS index itself is left
untouched (the source only logs the intended rebuild).  A missing mapping
raises `KeyError` in the source, caught as a `False` return. -/
def VectorDatabase.remove_document_embeddings (db : VectorDatabase)
    (class_id : String) (_document_id : String) (chunk_ids : List String) :
    Bool × VectorDatabase :=
  if (alookup db.indexes class_id).isNone then (true, db)
  else
    match alookup db.chunk_mappings class_id with
    | none => (false, db)
    | some current_mapping =>
      let indices_to_remove : List Nat :=
        ((current_mapping.enum).filter (fun p => decide (p.2 ∈ chunk_ids))).map Prod.fst
      if indices_to_remove.isEmpty then (true, db)
      else
        let new_mapping : List String :=
          ((current_mapping.enum).filter
            (fun p => decide (p.1 ∉ indices_to_remove))).map Prod.snd
        let db1 : VectorDatabase :=
          { db with chunk_mappings := aset db.chunk_mappings class_id new_mapping }
        (true, db1)

/-- The chunk-id mapping the database holds for a class (empty if absent). -/
def mappingOf (db : VectorDatabase) (class_id : String) : List String :=
  (alookup db.chunk_mappings class_id).getD []

/-- The vectors the database's index holds for a class (empty if absent);
`(vecsOf db c).length` is the index's `ntotal`. -/
def vecsOf (db : VectorDatabase) (class_id : String) : List Vec :=
  (alookup db.indexes class_id).getD []

/-- Relational `Class` row (models.py); only the columns read by the
verified operations. -/
structure Class where
  id : String
  name : String
  enabled : Bool
deriving DecidableEq

/-- Relational `Document` row (models.py); only the columns read by the
verified operations. -/
structure Document where
  id : String
  name : String
  file_type : String
deriving DecidableEq

/-- Relational `DocumentChunk` row (models.py).  The source column
`section` is called `section_label` here (`section` is a Lean keyword). -/
structure DocumentChunk where
  id : String
  document_id : String
  content : String
  page_number : Option Nat
  section_label : Option String
deriving DecidableEq

/-- Relational `StudentAccess` row (models.py). -/
structure StudentAccess where
  student_id : String
  class_id : String
  enabled : Bool
deriving DecidableEq

/-- The relational store as the verified services see it: the table rows
they query plus the `class_documents` association table, as
`(document_id, class_id)` pairs. -/
structure DBState where
  classes : List Class
  documents : List Document
  chunks : List DocumentChunk
  student_access : List StudentAccess
  assignments : List (String × String)
deriving DecidableEq

/-- `db.query(Class).filter(Class.id == class_id).first()`. -/
def findClass (db : DBState) (class_id : String) : Option Class :=
  db.classes.find? (fun c => decide (c.id = class_id))

/-- `db.query(Document).filter(Document.id == document_id).first()`. -/
def findDocument (db : DBState) (document_id : String) : Option Document :=
  db.documents.find? (fun d => decide (d.id = document_id))

/-- `db.query(DocumentChunk).filter(DocumentChunk.document_id == document_id).all()`. -/
def chunksOfDocument (db : DBState) (document_id : String) : List DocumentChunk :=
  db.chunks.filter (fun ch => decide (ch.document_id = document_id))

/-- Combined state of `ClassIsolationService`: the relational session plus
its `VectorDatabase`. -/
structure SysState where
  rel : DBState
  vdb : VectorDatabase
deriving DecidableEq

/-- `ClassIsolationService.verify_student_access`: false unless the class
row exists and is enabled and an enabled `StudentAccess` row matches the
(student, class) pair. -/
def verify_student_access (db : DBState) (student_id class_id : String) : Bool :=
  match findClass db class_id with
  | none => false
  | some class_obj =>
    if !class_obj.enabled then false
    else
      (db.student_access.find? (fun a =>
        decide (a.student_id = student_id) && decide (a.class_id = class_id) && a.enabled)).isSome

/-- `ClassIsolationService.assign_document_to_class`.  Validates that both
rows exist; no-op success when already assigned; otherwise commits the
relational assignment, then embeds the document's chunks and adds them to
the class index.  `embed _ = none` reproduces the source's exception path
in `generate_embeddings`: the method returns `False`, but the relational
assignment was committed before the exception, so it stays. -/
def assign_document_to_class (embed : String → Option Vec) (s : SysState)
    (document_id class_id : String) : Bool × SysState :=
  match findDocument s.rel document_id, findClass s.rel class_id with
  | some _, some _ =>
    if (document_id, class_id) ∈ s.rel.assignments then (true, s)
    else
      let rel1 : DBState :=
        { s.rel with assignments := s.rel.assignments ++ [(document_id, class_id)] }
      let s1 : SysState := { s with rel := rel1 }
      let chunks := chunksOfDocument s1.rel document_id
      if chunks.isEmpty then (true, s1)
      else
        match (chunks.map (fun ch => ch.content)).mapM embed with
        | none => (false, s1)
        | some embeddings =>
          let chunk_ids := chunks.map (fun ch => ch.id)
          (true, { s1 with vdb := (s1.vdb.add_embeddings class_id embeddings chunk_ids).2 })
  | _, _ => (false, s)

/-- `ClassIsolationService.remove_document_from_class`: validates both rows
exist, deletes the relational assignment if present (`list.remove`), then
removes the document's chunk ids from the class's vector mapping.  The
boolean returned by `remove_document_embeddings` is ignored, as in the
source. -/
def remove_document_from_class (s : SysState) (document_id class_id : String) :
    Bool × SysState :=
  match findDocument s.rel document_id, findClass s.rel class_id with
  | some _, some _ =>
    let rel1 : DBState :=
      { s.rel with assignments := s.rel.assignments.erase (document_id, class_id) }
    let chunk_ids := (chunksOfDocument rel1 document_id).map (fun ch => ch.id)
    let vdb1 := (s.vdb.remove_document_embeddings class_id document_id chunk_ids).2
    (true, { rel := rel1, vdb := vdb1 })
  | _, _ => (false, s)

/-- One iteration of the `migrate_class_documents` loop over a document of
the source class; the accumulator is (migrated ids, failed ids, state). -/
def migrate_step (embed : String → Option Vec) (from_class_id to_class_id : String)
    (acc : List String × List String × SysState) (doc : Document) :
    List String × List String × SysState :=
  let (migrated, failed, st) := acc
  let r := remove_document_from_class st doc.id from_class_id
  if r.1 then
    let a := assign_document_to_class embed r.2 doc.id to_class_id
    if a.1 then (migrated ++ [doc.id], failed, a.2)
    else
      let back := assign_document_to_class embed a.2 doc.id from_class_id
      (migrated, failed ++ [doc.id], back.2)
  else (migrated, failed ++ [doc.id], r.2)

/-- `ClassIsolationService.migrate_class_documents`: `none` models the
`{"error": ...}` result when either class row is missing; otherwise each
document assigned to the source class is removed from it and assigned to
the destination, with a compensating re-assign to the source on
destination failure. -/
def migrate_class_documents (embed : String → Option Vec) (s : SysState)
    (from_class_id to_class_id : String) :
    Option (List String × List String) × SysState :=
  match findClass s.rel from_class_id, findClass s.rel to_class_id with
  | some _, some _ =>
    let documents := s.rel.documents.filter
      (fun d => decide ((d.id, from_class_id) ∈ s.rel.assignments))
    let r := documents.foldl (migrate_step embed from_class_id to_class_id) ([], [], s)
    (some (r.1, r.2.1), r.2.2)
  | _, _ => (none, s)

/-- A `VectorDatabase` operation, for stating invariants over operation
sequences (claim C2's "sequence of create/add/remove operations"). -/
inductive VOp where
  | create (class_id : String)
  | add (class_id : String) (embeddings : List Vec) (chunk_ids : List String)
  | remove (class_id : String) (document_id : String) (chunk_ids : List String)
deriving DecidableEq

/-- Apply one vector-database operation (result state only). -/
def applyVOp (db : VectorDatabase) : VOp → VectorDatabase
  | .create c => (db.create_class_index c).2
  | .add c es ids => (db.add_embeddings c es ids).2
  | .remove c d ids => (db.remove_document_embeddings c d ids).2

/-- Apply a sequence of vector-database operations. -/
def applyVOps (db : VectorDatabase) (ops : List VOp) : VectorDatabase :=
  ops.foldl applyVOp db

/-- Vector-database operations that never remove and whose adds pass
positionally aligned vector and chunk-id lists, as every service call site
does. -/
def VOp.alignedNonRemove : VOp → Prop
  | .create _ => True
  | .add _ es ids => es.length = ids.length
  | .remove _ _ _ => False

/-- The positional-correspondence invariant of the mapping files: each
class's mapping is exactly as long as its index, and a class has an index
exactly when it has a mapping. -/
def ParallelWF (db : VectorDatabase) : Prop :=
  ∀ c : String, ((alookup db.indexes c).isSome ↔ (alookup db.chunk_mappings c).isSome)
    ∧ (mappingOf db c).length = (vecsOf db c).length

/-- One mutation step of the isolation service: the only paths by which a
document's chunks enter or leave a class's vector index (spec §4.4). -/
inductive IsoStep (embed : String → Option Vec) : SysState → SysState → Prop where
  | assign (s : SysState) (document_id class_id : String) :
      IsoStep embed s (assign_document_to_class embed s document_id class_id).2
  | remove (s : SysState) (document_id class_id : String) :
      IsoStep embed s (remove_document_from_class s document_id class_id).2

/-- States reachable from `s` by isolation-service mutations. -/
inductive Reachable (embed : String → Option Vec) : SysState → SysState → Prop where
  | refl (s : SysState) : Reachable embed s s
  | step (s t u : SysState) : Reachable embed s t → IsoStep embed t u → Reachable embed s u

/-- Chunk id `x` can be returned by some `search` on class `class_id`. -/
def Retrievable (db : VectorDatabase) (class_id x : String) : Prop :=
  ∃ q k sc, (x, sc) ∈ db.search class_id q k

/-- RAG configuration (rag_service.py `__init__`): minimum similarity for
relevant chunks. -/
def similarity_threshold : ℚ := 7/10

/-- RAG configuration: maximum chunks to retrieve. -/
def max_chunks : Nat := 5

/-- RAG configuration: maximum context length for generation. -/
def max_context_length : Nat := 2000

/-- `CitationResponse` (schemas/queries.py); the source field `section` is
`section_label` here. -/
structure CitationResponse where
  document_id : String
  document_name : String
  page_number : Option Nat
  section_label : Option String
  chunk_id : String
  relevance_score : ℚ
  content_preview : String
deriving DecidableEq

/-- `DocumentReference` (schemas/queries.py); `last_accessed` (wall-clock)
is elided. -/
structure DocumentReference where
  id : String
  name : String
  type : String
deriving DecidableEq

/-- `QueryResponse` (schemas/queries.py); `processing_time` (wall-clock)
is elided. -/
structure QueryResponse where
  answer : String
  citations : List CitationResponse
  used_documents : List DocumentReference
  confidence : ℚ
  success : Bool
  error : Option String
deriving DecidableEq

/-- `RAGService._search_relevant_chunks`: search the class index for
`max_chunks * 2` candidates, keep those meeting the similarity threshold
whose chunk row resolves, sort by descending similarity (stable, like
Python's `sort(key=..., reverse=True)`), truncate to `max_chunks`. -/
def search_relevant_chunks (s : SysState) (class_id : String) (query_embedding : Vec) :
    List (DocumentChunk × ℚ) :=
  let search_results := s.vdb.search class_id query_embedding (max_chunks * 2)
  if search_results.isEmpty then []
  else
    let relevant_chunks := search_results.foldl
      (fun acc p =>
        if similarity_threshold ≤ p.2 then
          match s.rel.chunks.find? (fun ch => decide (ch.id = p.1)) with
          | some chunk => acc ++ [(chunk, p.2)]
          | none => acc
        else acc) []
    (sortByScoreDesc relevant_chunks).take max_chunks

/-- Python `str.split()` with no argument: split on whitespace runs,
dropping empty pieces. -/
def pySplitWS (s : String) : List String :=
  (s.split (fun c => c.isWhitespace)).filter (fun w => decide (w ≠ ""))

/-- Python substring test `needle in hay` on strings, as character lists. -/
def containsSubstring (hay needle : List Char) : Bool :=
  match hay with
  | [] => needle.isEmpty
  | _ :: t => needle.isPrefixOf hay || containsSubstring t needle

/-- The fixed not-found message of `_generate_answer_from_context`. -/
def not_found_message : String := "I can't find this in the school materials."

/-- `RAGService._generate_answer_from_context` (the placeholder keyword
generator): not-found on blank context, fewer than two shared words, or no
sentence containing a query word; otherwise up to three matching
sentences, joined and prefixed. -/
def generate_answer_from_context (query context : String) : String :=
  if context.trim = "" then not_found_message
  else
    let query_words := (pySplitWS query.toLower).dedup
    let context_words := (pySplitWS context.toLower).dedup
    let overlap := query_words.filter (fun w => decide (w ∈ context_words))
    if overlap.length < 2 then not_found_message
    else
      let sentences := context.splitOn "."
      let relevant_sentences := (sentences.filter (fun sentence =>
        query_words.any (fun word =>
          containsSubstring sentence.toLower.toList word.toList))).map String.trim
      if relevant_sentences.isEmpty then not_found_message
      else
        let answer0 := String.intercalate ". " (relevant_sentences.take 3)
        let answer1 := answer0.trim
        let answer2 := if answer1.endsWith "." then answer1 else answer1 ++ "."
        "Based on the course materials: " ++ answer2

/-- `RAGService._create_no_results_response` (processing time elided). -/
def create_no_results_response : QueryResponse :=
  { answer := "I can't find this in the school materials. Please make sure your question relates to the course content provided by your teacher."
    citations := []
    used_documents := []
    confidence := 0
    success := true
    error := none }

/-- `RAGService._create_error_response` (processing time elided). -/
def create_error_response (error_message : String) : QueryResponse :=
  { answer := "I'm sorry, I encountered an error processing your question. Please try again."
    citations := []
    used_documents := []
    confidence := 0
    success := false
    error := some error_message }

/-- One citation of `_generate_response`. -/
def mkCitation (document : Document) (chunk : DocumentChunk) (similarity_score : ℚ) :
    CitationResponse :=
  { document_id := document.id
    document_name := document.name
    page_number := chunk.page_number
    section_label := chunk.section_label
    chunk_id := chunk.id
    relevance_score := similarity_score
    content_preview := if 200 < chunk.content.length
                       then chunk.content.take 200 ++ "..." else chunk.content }

/-- `RAGService._generate_response` given the retained chunks: assemble
context parts, citations (skipping chunks whose document row is missing)
and used-document references deduplicated by document id in first-seen
order (the source's insertion-ordered dict). -/
def generate_response (s : SysState) (query : String)
    (relevant_chunks : List (DocumentChunk × ℚ)) : QueryResponse :=
  if relevant_chunks.isEmpty then create_no_results_response
  else
    let step := fun (acc : List String × List CitationResponse × List DocumentReference)
                    (p : DocumentChunk × ℚ) =>
      let (context_parts, citations, used_documents) := acc
      let context_parts := context_parts ++ [p.1.content]
      match findDocument s.rel p.1.document_id with
      | none => (context_parts, citations, used_documents)
      | some document =>
        let citations := citations ++ [mkCitation document p.1 p.2]
        let used_documents :=
          if used_documents.any (fun ref => decide (ref.id = document.id))
          then used_documents
          else used_documents ++
            [{ id := document.id, name := document.name, type := document.file_type }]
        (context_parts, citations, used_documents)
    let r := relevant_chunks.foldl step ([], [], [])
    let full_context0 := String.intercalate "\n\n" r.1
    let full_context := if max_context_length < full_context0.length
                        then full_context0.take max_context_length ++ "..."
                        else full_context0
    let answer := generate_answer_from_context query full_context
    let avg_similarity := (relevant_chunks.map Prod.snd).sum / (relevant_chunks.length : ℚ)
    { answer := answer
      citations := r.2.1
      used_documents := r.2.2
      confidence := min avg_similarity 1
      success := true
      error := none }

/-- `RAGService.process_query` (access gating and timing live outside this
method).  `embed query = none` models a `generate_single_embedding`
exception, caught into an error response; the diagnostic string carried by
the source is the exception text. -/
def process_query (embed : String → Option Vec) (s : SysState)
    (query class_id _student_id : String) : QueryResponse :=
  match findClass s.rel class_id with
  | none => create_error_response "Class not found"
  | some _ =>
    match embed query with
    | none => create_error_response "embedding error"
    | some query_embedding =>
      let relevant_chunks := search_relevant_chunks s class_id query_embedding
      if relevant_chunks.isEmpty then create_no_results_response
      else generate_response s query relevant_chunks

/-- Terminal sentence punctuation (the regex class `[.!?]`). -/
def isTerminalPunct (c : Char) : Bool :=
  decide (c = '.') || decide (c = '!') || decide (c = '?')

/-- Fuel-based scanner for `re.split(r'[.!?]+\s+', text)`: a separator is
a maximal run of terminal punctuation followed by a maximal run of
whitespace, and separators are dropped.  Fuel at least the input length
makes the fuel-exhaustion branch unreachable; the fuel keeps the recursion
structural so concrete runs reduce in the kernel.  (Python `\s` also
matches `\x0b`/`\x0c`, which `Char.isWhitespace` omits; no claim involves
those characters.) -/
def splitSentencesAux : Nat → List Char → List Char → List (List Char)
  | _, [], acc => [acc.reverse]
  | 0, l, acc => [acc.reverse ++ l]
  | fuel + 1, c :: rest, acc =>
    if isTerminalPunct c then
      match (c :: rest).dropWhile isTerminalPunct with
      | d :: tl =>
        if d.isWhitespace then
          acc.reverse :: splitSentencesAux fuel ((d :: tl).dropWhile Char.isWhitespace) []
        else splitSentencesAux fuel rest (c :: acc)
      | [] => splitSentencesAux fuel rest (c :: acc)
    else splitSentencesAux fuel rest (c :: acc)

/-- Python `str.strip()` on a character list: drop leading and trailing
whitespace. -/
def stripChars (cs : List Char) : List Char :=
  ((cs.dropWhile Char.isWhitespace).reverse.dropWhile Char.isWhitespace).reverse

/-- `DocumentProcessor._split_into_sentences`: split the text at terminal
punctuation boundaries, strip each fragment, and keep exactly the stripped
fragments longer than 10 characters.  Strings are handled as their
character lists (Python string length counts code points, as
`List.length` does here). -/
def split_into_sentences (text : String) : List String :=
  let sentences := splitSentencesAux text.toList.length text.toList []
  ((sentences.map stripChars).filter (fun s => decide (10 < s.length))).map
    (fun cs => String.mk cs)

/-- Structural well-formedness of a `VectorDatabase`, true of every state
the services produce: a class has an index exactly when it has a mapping,
and the mapping is never longer than the index (vectors are only ever
appended in step with mapping entries, and removal only shrinks the
mapping). -/
def VdbWF (db : VectorDatabase) : Prop :=
  ∀ c : String, ((alookup db.indexes c).isSome ↔ (alookup db.chunk_mappings c).isSome)
    ∧ (mappingOf db c).length ≤ (vecsOf db c).length

/-- The isolation invariant relating a system state's vector mappings to
its relational assignment table: a chunk id sits in a class's mapping
exactly when some chunk row carries it and its document is assigned to
that class. -/
def IsoInv (s : SysState) : Prop :=
  ∀ (c x : String), x ∈ mappingOf s.vdb c ↔
    ∃ ch ∈ s.rel.chunks, ch.id = x ∧ (ch.document_id, c) ∈ s.rel.assignments

/-- Well-formed system states: structurally sound vector database, no
duplicate assignment rows, primary-key-unique chunk ids, and the isolation
invariant. -/
def SysWF (s : SysState) : Prop :=
  VdbWF s.vdb ∧ s.rel.assignments.Nodup
    ∧ (s.rel.chunks.map DocumentChunk.id).Nodup ∧ IsoInv s

/-- Example state for the search-totality claim: an index holding two
vectors but a single-entry mapping — the shape left behind by a lazy
removal. -/
def shortMappingDb : VectorDatabase :=
  { indexes := [("c", [[1], [0]])], chunk_mappings := [("c", ["a"])] }

/-- A small document chunk used by the concrete example states. -/
def exChunk (i d content : String) : DocumentChunk :=
  { id := i, document_id := d, content := content, page_number := none, section_label := none }

/-- Relational state of the running example: one enabled class, one
document with four chunks, one enabled student access row. -/
def exRel : DBState :=
  { classes := [{ id := "math", name := "Math 101", enabled := true }]
    documents := [{ id := "d1", name := "Algebra.pdf", file_type := "pdf" }]
    chunks := [exChunk "a" "d1" "alpha", exChunk "b" "d1" "beta",
               exChunk "c" "d1" "gamma", exChunk "d" "d1" "delta"]
    student_access := [{ student_id := "alice", class_id := "math", enabled := true }]
    assignments := [("d1", "math")] }

/-- Vector database of the running example: four one-dimensional vectors
whose scores against the query `[1]` are 0.9, 0.75, 0.65, 0.5. -/
def exVdb : VectorDatabase :=
  { indexes := [("math", [[9/10], [3/4], [13/20], [1/2]])]
    chunk_mappings := [("math", ["a", "b", "c", "d"])] }

/-- Combined running example state. -/
def exSys : SysState := { rel := exRel, vdb := exVdb }

/-- Example state with an existing class whose index is empty (for the
no-results path). -/
def emptyIndexSys : SysState :=
  { rel := exRel, vdb := { indexes := [("math", [])], chunk_mappings := [("math", [])] } }

/-- Example initial state for the isolation invariant: the relational rows
of `exRel` but nothing assigned and no vector data yet. -/
def initSys : SysState :=
  { rel := { exRel with assignments := [] }, vdb := VectorDatabase.empty }

/-- A total embedding stub used by concrete runs. -/
def exEmbed : String → Option Vec := fun _ => some [1]

/-- An embedding stub that fails exactly on the content `"alpha"`, driving
the migration example into its compensation branch. -/
def failingEmbed : String → Option Vec :=
  fun t => if t = "alpha" then none else some [1]

/-- Relational state for the migration example: classes `c1`, `c2`; one
document with a single chunk whose content `failingEmbed` rejects;
assigned to `c1`. -/
def migRel : DBState :=
  { classes := [{ id := "c1", name := "C1", enabled := true },
                { id := "c2", name := "C2", enabled := true }]
    documents := [{ id := "d1", name := "Doc.pdf", file_type := "pdf" }]
    chunks := [exChunk "a" "d1" "alpha"]
    student_access := []
    assignments := [("d1", "c1")] }

/-- Combined migration example state (no vector data: the only assign that
ran failed at the embedding step). -/
def migSys : SysState := { rel := migRel, vdb := VectorDatabase.empty }

/-- The state the failing migration run ends in: the document was removed
from `c1`, relationally committed to `c2` before the embedding failure,
then relationally re-committed to `c1` by the compensating assign. -/
def migFinal : SysState :=
  { rel := { migRel with assignments := [("d1", "c2"), ("d1", "c1")] }
    vdb := VectorDatabase.empty }

/-! ## Lemmas and claim theorems -/

theorem alookup_cons {α : Type} (p : String × α) (l : List (String × α)) (k : String) :
    alookup (p :: l) k = if p.1 = k then some p.2 else alookup l k := by
  by_cases h : p.1 = k <;> simp [alookup, List.find?_cons, h]

theorem alookup_aset_self {α : Type} (l : List (String × α)) (k : String) (v : α) :
    alookup (aset l k v) k = some v := by
  induction l with
  | nil => simp [aset, alookup_cons]
  | cons p t ih =>
    by_cases h : p.1 = k
    · simp [aset, h, alookup_cons]
    · simp [aset, h, alookup_cons, ih]

theorem alookup_aset_ne {α : Type} (l : List (String × α)) (k k' : String) (v : α)
    (h : k' ≠ k) : alookup (aset l k v) k' = alookup l k' := by
  induction l with
  | nil =>
    have hne : k ≠ k' := fun hh => h hh.symm
    simp [aset, alookup_cons, hne, alookup]
  | cons p t ih =>
    by_cases hp : p.1 = k
    · subst hp
      have hne : p.1 ≠ k' := fun hh => h hh.symm
      simp [aset, alookup_cons, hne]
    · simp [aset, hp, alookup_cons, ih]

theorem mem_indices_to_remove (m chunk_ids : List String) (i : Nat) :
    i ∈ ((m.enum.filter (fun p => decide (p.2 ∈ chunk_ids))).map Prod.fst)
      ↔ ∃ x, m[i]? = some x ∧ x ∈ chunk_ids := by
  simp only [List.mem_map, List.mem_filter, List.mem_enum_iff_getElem?, decide_eq_true_eq]
  constructor
  · rintro ⟨p, ⟨hget, hmem⟩, hfst⟩
    exact ⟨p.2, by rw [← hfst]; exact hget, hmem⟩
  · rintro ⟨x, hget, hmem⟩
    exact ⟨(i, x), ⟨hget, hmem⟩, rfl⟩

theorem remove_new_mapping_eq_filter (m chunk_ids : List String) :
    ((m.enum.filter (fun p =>
        !decide (p.1 ∈ (m.enum.filter (fun q => decide (q.2 ∈ chunk_ids))).map Prod.fst))).map
      Prod.snd)
      = m.filter (fun x => !decide (x ∈ chunk_ids)) := by
  have hcong :
      m.enum.filter (fun p =>
        !decide (p.1 ∈ (m.enum.filter (fun q => decide (q.2 ∈ chunk_ids))).map Prod.fst))
        = m.enum.filter (fun p => !decide (p.2 ∈ chunk_ids)) := by
    apply List.filter_congr
    intro p hp
    have h1 : m[p.1]? = some p.2 := List.mem_enum_iff_getElem?.mp hp
    have hiff : (p.1 ∈ (m.enum.filter (fun q => decide (q.2 ∈ chunk_ids))).map Prod.fst)
        ↔ p.2 ∈ chunk_ids := by
      rw [mem_indices_to_remove]
      constructor
      · rintro ⟨x, hx, hxm⟩
        rw [h1] at hx
        cases hx
        exact hxm
      · intro hmem
        exact ⟨p.2, h1, hmem⟩
    rw [decide_eq_decide.mpr hiff]
  rw [hcong]
  have h2 : ((m.enum.map Prod.snd).filter (fun x => !decide (x ∈ chunk_ids)))
      = (m.enum.filter ((fun x => !decide (x ∈ chunk_ids)) ∘ Prod.snd)).map Prod.snd :=
    List.filter_map Prod.snd m.enum
  rw [List.enum_map_snd] at h2
  rw [h2]
  rfl

/-- Entries kept by `remove_document_embeddings` when no index position
matches: the whole mapping survives a filter for ids outside the removal
set. -/
theorem filter_eq_self_of_no_match (m chunk_ids : List String)
    (h : ((m.enum.filter (fun p => decide (p.2 ∈ chunk_ids))).map Prod.fst).isEmpty) :
    m.filter (fun x => decide (x ∉ chunk_ids)) = m := by
  rw [List.filter_eq_self]
  intro x hx
  rcases List.mem_iff_getElem.mp hx with ⟨i, hi, hgx⟩
  rw [List.isEmpty_iff] at h
  simp only [decide_eq_true_eq]
  intro hxm
  have : i ∈ ((m.enum.filter (fun p => decide (p.2 ∈ chunk_ids))).map Prod.fst) :=
    (mem_indices_to_remove m chunk_ids i).mpr
      ⟨x, by rw [List.getElem?_eq_getElem hi, hgx], hxm⟩
  rw [h] at this
  exact absurd this (List.not_mem_nil i)

/-- C4 core characterisation of `VectorDatabase.remove_document_embeddings`
when the class has an index and a mapping: success, the index dictionary
untouched, and the mapping filtered to the ids outside `chunk_ids`. -/
theorem remove_document_embeddings_spec
    (db : VectorDatabase) (class_id document_id : String) (chunk_ids : List String)
    (index : List Vec) (hidx : alookup db.indexes class_id = some index)
    (m : List String) (hm : alookup db.chunk_mappings class_id = some m) :
    (db.remove_document_embeddings class_id document_id chunk_ids).1 = true
    ∧ (db.remove_document_embeddings class_id document_id chunk_ids).2.indexes = db.indexes
    ∧ mappingOf (db.remove_document_embeddings class_id document_id chunk_ids).2 class_id
        = m.filter (fun x => decide (x ∉ chunk_ids))
    ∧ vecsOf (db.remove_document_embeddings class_id document_id chunk_ids).2 class_id = index
    ∧ (∀ c' : String, c' ≠ class_id →
        alookup (db.remove_document_embeddings class_id document_id chunk_ids).2.chunk_mappings c'
          = alookup db.chunk_mappings c')
    ∧ (alookup (db.remove_document_embeddings class_id document_id chunk_ids).2.chunk_mappings
        class_id).isSome := by
  by_cases hemp : ((m.enum.filter (fun p => decide (p.2 ∈ chunk_ids))).map Prod.fst).isEmpty
  · have hres : db.remove_document_embeddings class_id document_id chunk_ids = (true, db) := by
      simp [VectorDatabase.remove_document_embeddings, hidx, hm, hemp]
    rw [hres]
    refine ⟨rfl, rfl, ?_, ?_, fun c' _ => rfl, by rw [hm]; rfl⟩
    · rw [filter_eq_self_of_no_match m chunk_ids hemp]
      simp [mappingOf, hm]
    · simp [vecsOf, hidx]
  · have hres : db.remove_document_embeddings class_id document_id chunk_ids =
        (true, { db with chunk_mappings := aset db.chunk_mappings class_id (m.filter (fun x => decide (x ∉ chunk_ids))) }) := by
      simp [VectorDatabase.remove_document_embeddings, hidx, hm, hemp,
        remove_new_mapping_eq_filter]
    rw [hres]
    refine ⟨rfl, rfl, ?_, ?_, ?_, ?_⟩
    · simp [mappingOf, alookup_aset_self]
    · simp [vecsOf, hidx]
    · intro c' hc'
      simp [alookup_aset_ne _ _ _ _ hc']
    · simp [alookup_aset_self]

theorem length_faissSearch (vecs : List Vec) (q : Vec) (n : Nat) :
    (faissSearch vecs q n).length = min n vecs.length := by
  simp [faissSearch, sortByScoreDesc, List.length_insertionSort]

/-- Every translated search hit's chunk id comes from the class mapping. -/
theorem search_mem_mapping (db : VectorDatabase) (class_id : String) (q : Vec) (k : Nat)
    (p : String × ℚ) (hp : p ∈ db.search class_id q k) : p.1 ∈ mappingOf db class_id := by
  unfold VectorDatabase.search at hp
  rcases h1 : alookup db.indexes class_id with _ | index
  · rw [h1] at hp
    simp at hp
  rw [h1] at hp
  rcases h2 : alookup db.chunk_mappings class_id with _ | m
  · rw [h2] at hp
    simp at hp
  rw [h2] at hp
  by_cases hlen : index.length = 0
  · simp [hlen] at hp
  simp only [hlen, if_false] at hp
  rcases List.mem_filterMap.mp hp with ⟨a, _, hfa⟩
  by_cases hb : a.1 < m.length
  · simp only [hb, dif_pos] at hfa
    cases hfa
    simp only [mappingOf, h2, Option.getD_some]
    exact List.get_mem m _ _
  · simp [hb] at hfa

/-- A search returns at most `min k ntotal` pairs. -/
theorem search_length_le (db : VectorDatabase) (class_id : String) (q : Vec) (k : Nat) :
    (db.search class_id q k).length ≤ min k (vecsOf db class_id).length := by
  unfold VectorDatabase.search
  rcases h1 : alookup db.indexes class_id with _ | index
  · simp
  rcases h2 : alookup db.chunk_mappings class_id with _ | m
  · simp
  by_cases hlen : index.length = 0
  · simp [hlen]
  simp only [hlen, if_false]
  have hle := List.length_filterMap_le
    (fun p : Nat × ℚ => if h : p.1 < m.length then some (m.get ⟨p.1, h⟩, p.2) else none)
    (faissSearch index q (min k index.length))
  have hf : (faissSearch index q (min k index.length)).length = min k index.length := by
    rw [length_faissSearch]
    omega
  rw [hf] at hle
  have hv : vecsOf db class_id = index := by simp [vecsOf, h1]
  rw [hv]
  omega

/-- Any mapped position can be hit: with `k = ntotal` the search returns a
pair for every position inside the mapping. -/
theorem search_complete (db : VectorDatabase) (class_id : String)
    (index : List Vec) (h1 : alookup db.indexes class_id = some index)
    (m : List String) (h2 : alookup db.chunk_mappings class_id = some m)
    (hlen : m.length ≤ index.length)
    (i : Nat) (hi : i < m.length) (q : Vec) :
    (m.get ⟨i, hi⟩, dot q (index.get ⟨i, Nat.lt_of_lt_of_le hi hlen⟩))
      ∈ db.search class_id q index.length := by
  unfold VectorDatabase.search
  simp only [h1, h2]
  have hne : ¬ index.length = 0 := by omega
  rw [if_neg hne]
  apply List.mem_filterMap.mpr
  refine ⟨(i, dot q (index.get ⟨i, Nat.lt_of_lt_of_le hi hlen⟩)), ?_, ?_⟩
  · unfold faissSearch sortByScoreDesc
    rw [Nat.min_self]
    have hlen2 :
        ((index.enum.map (fun p => (p.1, dot q p.2))).insertionSort
          (fun a b => b.2 ≤ a.2)).length = index.length := by
      simp [List.length_insertionSort]
    rw [List.take_of_length_le (Nat.le_of_eq hlen2)]
    rw [List.mem_insertionSort]
    apply List.mem_map.mpr
    refine ⟨(i, index.get ⟨i, Nat.lt_of_lt_of_le hi hlen⟩), ?_, rfl⟩
    rw [List.mem_enum_iff_getElem?]
    simp [List.getElem?_eq_getElem]
  · simp [hi]

/-- Under structural well-formedness, a chunk id is retrievable via search
exactly when it sits in the class mapping. -/
theorem retrievable_iff_mem_mapping (db : VectorDatabase) (hwf : VdbWF db) (c x : String) :
    Retrievable db c x ↔ x ∈ mappingOf db c := by
  constructor
  · rintro ⟨q, k, sc, hmem⟩
    exact search_mem_mapping db c q k (x, sc) hmem
  · intro hx
    rcases h2 : alookup db.chunk_mappings c with _ | m
    · rw [mappingOf, h2] at hx
      simp at hx
    have hm : mappingOf db c = m := by simp [mappingOf, h2]
    rw [hm] at hx
    have hsized := (hwf c).2
    rw [hm] at hsized
    rcases h1 : alookup db.indexes c with _ | index
    · have : (alookup db.indexes c).isSome := by
        rw [(hwf c).1, h2]
        rfl
      rw [h1] at this
      simp at this
    have hv : vecsOf db c = index := by simp [vecsOf, h1]
    rw [hv] at hsized
    rcases List.mem_iff_get.mp hx with ⟨⟨i, hi⟩, hg⟩
    refine ⟨[], index.length, dot [] (index.get ⟨i, Nat.lt_of_lt_of_le hi hsized⟩), ?_⟩
    rw [← hg]
    exact search_complete db c index h1 m h2 hsized i hi []

/-- C4: for every class that has an index (every reachable such state also
has a mapping), `remove_document_embeddings` returns success, replaces the
chunk-id mapping by the order-preserving subsequence of prior entries
whose id is not in `chunk_ids`, and leaves the index dictionary — hence
the index's vector count — unchanged: the vectors are not physically
removed. -/
theorem removal_updates_mapping_keeps_vectors
    (db : VectorDatabase) (class_id document_id : String) (chunk_ids : List String)
    (index : List Vec) (hidx : alookup db.indexes class_id = some index)
    (m : List String) (hm : alookup db.chunk_mappings class_id = some m) :
    (db.remove_document_embeddings class_id document_id chunk_ids).1 = true
    ∧ mappingOf (db.remove_document_embeddings class_id document_id chunk_ids).2 class_id
        = m.filter (fun x => decide (x ∉ chunk_ids))
    ∧ (db.remove_document_embeddings class_id document_id chunk_ids).2.indexes = db.indexes
    ∧ (vecsOf (db.remove_document_embeddings class_id document_id chunk_ids).2 class_id).length
        = index.length := by
  rcases remove_document_embeddings_spec db class_id document_id chunk_ids index hidx m hm
    with ⟨hok, hind, hmap, hvec, _, _⟩
  exact ⟨hok, hmap, hind, by rw [hvec]⟩

theorem removal_updates_mapping_keeps_vectors_witness :
    alookup exVdb.indexes "math" = some [[9/10], [3/4], [13/20], [1/2]]
    ∧ alookup exVdb.chunk_mappings "math" = some ["a", "b", "c", "d"]
    ∧ ((exVdb.remove_document_embeddings "math" "d1" ["a", "b"]).1 = true
      ∧ mappingOf (exVdb.remove_document_embeddings "math" "d1" ["a", "b"]).2 "math"
          = ["a", "b", "c", "d"].filter (fun x => decide (x ∉ ["a", "b"]))
      ∧ (exVdb.remove_document_embeddings "math" "d1" ["a", "b"]).2.indexes = exVdb.indexes
      ∧ (vecsOf (exVdb.remove_document_embeddings "math" "d1" ["a", "b"]).2 "math").length
          = [[9/10], [3/4], [13/20], [1/2]].length) :=
  ⟨rfl, rfl,
    removal_updates_mapping_keeps_vectors exVdb "math" "d1" ["a", "b"]
      [[9/10], [3/4], [13/20], [1/2]] rfl ["a", "b", "c", "d"] rfl⟩

/-- C10: search is total on states where the mapping is shorter than the
index: every returned pair's chunk id comes from the mapping (no error,
no placeholder — raw hits at positions outside the mapping are silently
dropped), at most `min k ntotal` pairs come back, and on the example state
with two vectors but a one-entry mapping a `k = 2` search returns strictly
fewer than `min k ntotal` pairs. -/
theorem search_total_drops_unmapped :
    (∀ (db : VectorDatabase) (c : String) (q : Vec) (k : Nat) (p : String × ℚ),
        p ∈ db.search c q k → p.1 ∈ mappingOf db c)
    ∧ (∀ (db : VectorDatabase) (c : String) (q : Vec) (k : Nat),
        (db.search c q k).length ≤ min k (vecsOf db c).length)
    ∧ (shortMappingDb.search "c" [1] 2).length < min 2 (vecsOf shortMappingDb "c").length := by
  refine ⟨fun db c q k p hp => search_mem_mapping db c q k p hp,
          fun db c q k => search_length_le db c q k, ?_⟩
  norm_num [VectorDatabase.search, alookup, faissSearch, sortByScoreDesc, dot,
    shortMappingDb, vecsOf, List.find?, List.filterMap_cons]

theorem search_total_drops_unmapped_witness :
    ("a", (1 : ℚ)) ∈ shortMappingDb.search "c" [1] 2
    ∧ "a" ∈ mappingOf shortMappingDb "c" :=
  ⟨by norm_num [VectorDatabase.search, alookup, faissSearch, sortByScoreDesc, dot,
      shortMappingDb, List.find?, List.filterMap_cons],
   search_total_drops_unmapped.1 shortMappingDb "c" [1] 2 ("a", (1 : ℚ))
    (by norm_num [VectorDatabase.search, alookup, faissSearch, sortByScoreDesc, dot,
      shortMappingDb, List.find?, List.filterMap_cons])⟩

/-- C3: `verify_student_access` returns true exactly when the class row
exists and is enabled and an enabled access row matches the (student,
class) pair; in each of the other combinations of (class enabled, access
row exists, access row enabled) it returns false. -/
theorem access_gating_iff (db : DBState) (hnodup : (db.classes.map Class.id).Nodup)
    (student_id class_id : String) :
    verify_student_access db student_id class_id = true ↔
      ((∃ cls ∈ db.classes, cls.id = class_id ∧ cls.enabled = true)
        ∧ ∃ a ∈ db.student_access,
            a.student_id = student_id ∧ a.class_id = class_id ∧ a.enabled = true) := by
  unfold verify_student_access
  rcases hc : findClass db class_id with _ | cls
  · simp only [Bool.false_eq_true, false_iff]
    rintro ⟨⟨cls, hmem, hid, _⟩, _⟩
    have := List.find?_eq_none.mp hc cls hmem
    simp [hid] at this
  · have hclsmem : cls ∈ db.classes := List.mem_of_find?_eq_some hc
    have hclsid : cls.id = class_id := by
      have := List.find?_some hc
      simpa using this
    cases hen : cls.enabled with
    | false =>
      simp only [hen, Bool.not_false, if_true, Bool.false_eq_true, false_iff]
      rintro ⟨⟨cls', hmem', hid', hen'⟩, _⟩
      have : cls' = cls :=
        List.inj_on_of_nodup_map hnodup hmem' hclsmem (by rw [hid', hclsid])
      rw [this] at hen'
      rw [hen] at hen'
      exact Bool.false_ne_true hen'
    | true =>
      simp only [hen, Bool.not_true, Bool.false_eq_true, if_false]
      rw [List.find?_isSome]
      constructor
      · rintro ⟨a, hamem, hpred⟩
        simp only [Bool.and_eq_true, decide_eq_true_eq] at hpred
        exact ⟨⟨cls, hclsmem, hclsid, hen⟩, a, hamem, hpred.1.1, hpred.1.2, hpred.2⟩
      · rintro ⟨_, a, hamem, h1, h2, h3⟩
        exact ⟨a, hamem, by simp [h1, h2, h3]⟩

theorem access_gating_iff_witness :
    (exRel.classes.map Class.id).Nodup
    ∧ (verify_student_access exRel "alice" "math" = true ↔
        ((∃ cls ∈ exRel.classes, cls.id = "math" ∧ cls.enabled = true)
          ∧ ∃ a ∈ exRel.student_access,
              a.student_id = "alice" ∧ a.class_id = "math" ∧ a.enabled = true)) :=
  ⟨by decide, access_gating_iff exRel (by decide) "alice" "math"⟩

/-- C9: when the document and the class both exist and the document is
already assigned to the class, `assign_document_to_class` returns success
and leaves the whole state — the relational assignment set, every vector
index and every chunk mapping — exactly as it was. -/
theorem assign_noop_when_already_assigned (embed : String → Option Vec) (s : SysState)
    (document_id class_id : String)
    (doc : Document) (hd : findDocument s.rel document_id = some doc)
    (cls : Class) (hc : findClass s.rel class_id = some cls)
    (ha : (document_id, class_id) ∈ s.rel.assignments) :
    assign_document_to_class embed s document_id class_id = (true, s) := by
  unfold assign_document_to_class
  simp only [hd, hc]
  rw [if_pos ha]

theorem assign_noop_when_already_assigned_witness :
    findDocument exSys.rel "d1" = some { id := "d1", name := "Algebra.pdf", file_type := "pdf" }
    ∧ findClass exSys.rel "math" = some { id := "math", name := "Math 101", enabled := true }
    ∧ ("d1", "math") ∈ exSys.rel.assignments
    ∧ assign_document_to_class exEmbed exSys "d1" "math" = (true, exSys) :=
  ⟨by decide, by decide, by decide,
   assign_noop_when_already_assigned exEmbed exSys "d1" "math"
    { id := "d1", name := "Algebra.pdf", file_type := "pdf" } (by decide)
    { id := "math", name := "Math 101", enabled := true } (by decide) (by decide)⟩

/-- Characterisation of `add_embeddings` on states where a class has an
index exactly when it has a mapping: it succeeds, appends the vectors and
the chunk ids in step at the target class, and leaves every other class
untouched. -/
theorem add_embeddings_spec (db : VectorDatabase) (c : String) (es : List Vec)
    (ids : List String)
    (hiff : (alookup db.indexes c).isSome ↔ (alookup db.chunk_mappings c).isSome) :
    (db.add_embeddings c es ids).1 = true
    ∧ vecsOf (db.add_embeddings c es ids).2 c = vecsOf db c ++ es
    ∧ mappingOf (db.add_embeddings c es ids).2 c = mappingOf db c ++ ids
    ∧ (∀ c' : String, c' ≠ c →
        alookup (db.add_embeddings c es ids).2.indexes c' = alookup db.indexes c'
        ∧ alookup (db.add_embeddings c es ids).2.chunk_mappings c' = alookup db.chunk_mappings c')
    ∧ (alookup (db.add_embeddings c es ids).2.indexes c).isSome
    ∧ (alookup (db.add_embeddings c es ids).2.chunk_mappings c).isSome := by
  rcases h1 : alookup db.indexes c with _ | index
  · have h2 : alookup db.chunk_mappings c = none := by
      rcases h2 : alookup db.chunk_mappings c with _ | m
      · rfl
      · have : (alookup db.indexes c).isSome := hiff.mpr (by rw [h2]; rfl)
        rw [h1] at this
        simp at this
    have hres : db.add_embeddings c es ids =
        (true, { indexes := aset (aset db.indexes c []) c ([] ++ es),
                 chunk_mappings := aset (aset db.chunk_mappings c []) c ([] ++ ids) }) := by
      simp [VectorDatabase.add_embeddings, VectorDatabase.create_class_index, h1,
        alookup_aset_self]
    rw [hres]
    refine ⟨rfl, ?_, ?_, ?_, ?_, ?_⟩
    · simp [vecsOf, alookup_aset_self, h1]
    · simp [mappingOf, alookup_aset_self, h2]
    · intro c' hc'
      constructor
      · simp [alookup_aset_ne _ _ _ _ hc']
      · simp [alookup_aset_ne _ _ _ _ hc']
    · simp [alookup_aset_self]
    · simp [alookup_aset_self]
  · have h2 : ∃ m, alookup db.chunk_mappings c = some m := by
      have : (alookup db.chunk_mappings c).isSome := hiff.mp (by rw [h1]; rfl)
      exact Option.isSome_iff_exists.mp this
    rcases h2 with ⟨m, h2⟩
    have hres : db.add_embeddings c es ids =
        (true, { indexes := aset db.indexes c (index ++ es),
                 chunk_mappings := aset db.chunk_mappings c (m ++ ids) }) := by
      simp [VectorDatabase.add_embeddings, h1, h2, alookup_aset_self]
    rw [hres]
    refine ⟨rfl, ?_, ?_, ?_, ?_, ?_⟩
    · simp [vecsOf, alookup_aset_self, h1]
    · simp [mappingOf, alookup_aset_self, h2]
    · intro c' hc'
      constructor
      · simp [alookup_aset_ne _ _ _ _ hc']
      · simp [alookup_aset_ne _ _ _ _ hc']
    · simp [alookup_aset_self]
    · simp [alookup_aset_self]

/-- `create_class_index` preserves the parallel invariant. -/
theorem create_class_index_parallel (db : VectorDatabase) (c : String)
    (h : ParallelWF db) : ParallelWF (db.create_class_index c).2 := by
  intro c'
  by_cases hc : c' = c
  · subst hc
    simp [VectorDatabase.create_class_index, mappingOf, vecsOf, alookup_aset_self]
  · have h1 := (h c').1
    have h2 := (h c').2
    simp only [VectorDatabase.create_class_index, mappingOf, vecsOf,
      alookup_aset_ne _ _ _ _ hc]
    exact ⟨h1, h2⟩

/-- C2 counterexample: after `create`, an aligned `add` of two vectors and
a removal matching one entry, the class mapping holds one id while the
index still holds two vectors — the mapping length no longer equals the
index's vector count, refuting the claimed invariant for sequences that
contain a removal. -/
theorem mapping_parallel_counterexample :
    (mappingOf (applyVOps VectorDatabase.empty
        [VOp.create "c", VOp.add "c" [[1], [1]] ["a", "b"], VOp.remove "c" "d" ["a"]]) "c").length
      ≠ (vecsOf (applyVOps VectorDatabase.empty
        [VOp.create "c", VOp.add "c" [[1], [1]] ["a", "b"], VOp.remove "c" "d" ["a"]]) "c").length := by
  decide

/-- C2 amended: the positional invariant (mapping length = vector count,
adds appending ids and vectors in step) holds for every sequence of
`create_class_index` and aligned `add_embeddings` operations — no
`remove_document_embeddings` — from any state satisfying it, in particular
from the fresh empty database; a removal that matches entries breaks the
equality by shrinking only the mapping. -/
theorem mapping_parallel_invariant :
    (∀ (db : VectorDatabase) (ops : List VOp), ParallelWF db →
        (∀ op ∈ ops, op.alignedNonRemove) → ParallelWF (applyVOps db ops))
    ∧ ParallelWF VectorDatabase.empty
    ∧ (∀ (db : VectorDatabase) (c : String) (es : List Vec) (ids : List String),
        ((alookup db.indexes c).isSome ↔ (alookup db.chunk_mappings c).isSome) →
          vecsOf (db.add_embeddings c es ids).2 c = vecsOf db c ++ es
          ∧ mappingOf (db.add_embeddings c es ids).2 c = mappingOf db c ++ ids) := by
  refine ⟨?_, ?_, ?_⟩
  · intro db ops
    induction ops generalizing db with
    | nil => intro h _; exact h
    | cons op rest ih =>
      intro h hall
      have hop := hall op (List.mem_cons_self op rest)
      have hrest : ∀ o ∈ rest, o.alignedNonRemove :=
        fun o ho => hall o (List.mem_cons_of_mem op ho)
      apply ih _ _ hrest
      cases op with
      | create c => exact create_class_index_parallel db c h
      | add c es ids =>
        have hiff := (h c).1
        rcases add_embeddings_spec db c es ids hiff with ⟨_, hv, hm, hother, hs1, hs2⟩
        intro c'
        simp only [applyVOp]
        by_cases hc : c' = c
        · subst hc
          refine ⟨⟨fun _ => hs2, fun _ => hs1⟩, ?_⟩
          rw [hv, hm]
          simp only [List.length_append]
          have := (h c').2
          have hlen : es.length = ids.length := hop
          omega
        · rcases hother c' hc with ⟨ho1, ho2⟩
          simp only [applyVOp, mappingOf, vecsOf, ho1, ho2]
          exact (h c')
      | remove c d ids => exact absurd hop not_false
  · intro c
    simp [VectorDatabase.empty, mappingOf, vecsOf, alookup]
  · intro db c es ids hiff
    rcases add_embeddings_spec db c es ids hiff with ⟨_, hv, hm, _⟩
    exact ⟨hv, hm⟩

theorem mapping_parallel_invariant_witness :
    ParallelWF (applyVOps VectorDatabase.empty [VOp.create "c", VOp.add "c" [[1]] ["x"]]) :=
  mapping_parallel_invariant.1 VectorDatabase.empty [VOp.create "c", VOp.add "c" [[1]] ["x"]]
    mapping_parallel_invariant.2.1
    (by
      intro op hop
      simp only [List.mem_cons, List.not_mem_nil, or_false] at hop
      rcases hop with rfl | rfl
      · trivial
      · rfl)

/-- C8 counterexample: a fragment whose stripped length is exactly 10
characters is discarded, not kept — the code keeps only fragments
strictly longer than 10. -/
theorem sentence_fragment_len10_discarded :
    split_into_sentences "abcdefghij" = []
    ∧ (stripChars "abcdefghij".toList).length = 10 := by
  constructor
  · decide
  · decide

/-- C8 amended: every emitted sentence is strictly longer than 10
characters, and every raw fragment whose stripped form is strictly longer
than 10 characters is kept (fragments of stripped length exactly 10 are
discarded, per the counterexample). -/
theorem sentence_fragment_filter_gt_ten (text : String) :
    (∀ st ∈ split_into_sentences text, 10 < st.toList.length)
    ∧ ∀ frag ∈ splitSentencesAux text.toList.length text.toList [],
        10 < (stripChars frag).length →
          String.mk (stripChars frag) ∈ split_into_sentences text := by
  constructor
  · intro st hst
    unfold split_into_sentences at hst
    rcases List.mem_map.mp hst with ⟨cs, hcs, hmk⟩
    rcases List.mem_filter.mp hcs with ⟨_, hlen⟩
    rw [← hmk]
    simpa using hlen
  · intro frag hfrag hlen
    unfold split_into_sentences
    apply List.mem_map.mpr
    refine ⟨stripChars frag, List.mem_filter.mpr ⟨List.mem_map.mpr ⟨frag, hfrag, rfl⟩, ?_⟩, rfl⟩
    simpa using hlen

/-- The retained-chunk loop of `_search_relevant_chunks` is the filterMap
keeping threshold-passing candidates whose chunk row resolves. -/
theorem foldl_relevant_eq_filterMap (s : SysState) (results : List (String × ℚ))
    (acc : List (DocumentChunk × ℚ)) :
    results.foldl (fun acc p =>
        if similarity_threshold ≤ p.2 then
          match s.rel.chunks.find? (fun ch => decide (ch.id = p.1)) with
          | some chunk => acc ++ [(chunk, p.2)]
          | none => acc
        else acc) acc
      = acc ++ results.filterMap (fun p =>
          if similarity_threshold ≤ p.2 then
            (s.rel.chunks.find? (fun ch => decide (ch.id = p.1))).map (fun ch => (ch, p.2))
          else none) := by
  induction results generalizing acc with
  | nil => simp
  | cons p rest ih =>
    simp only [List.foldl_cons, List.filterMap_cons]
    by_cases hth : similarity_threshold ≤ p.2
    · simp only [if_pos hth]
      rcases hf : s.rel.chunks.find? (fun ch => decide (ch.id = p.1)) with _ | chunk <;>
        rw [hf] <;> simp [ih]
    · simp only [if_neg hth]
      simp [ih]

/-- `_search_relevant_chunks` equals: filter the raw search candidates to
those at or above the threshold whose chunk row resolves, stably sort by
descending score, truncate to `max_chunks`. -/
theorem search_relevant_chunks_eq (s : SysState) (class_id : String) (q : Vec) :
    search_relevant_chunks s class_id q =
      (sortByScoreDesc ((s.vdb.search class_id q (max_chunks * 2)).filterMap
        (fun p => if similarity_threshold ≤ p.2
                  then (s.rel.chunks.find? (fun ch => decide (ch.id = p.1))).map
                         (fun ch => (ch, p.2))
                  else none))).take max_chunks := by
  unfold search_relevant_chunks
  by_cases hemp : (s.vdb.search class_id q (max_chunks * 2)).isEmpty
  · rw [List.isEmpty_iff] at hemp
    simp [hemp, sortByScoreDesc]
  · rw [if_neg (by simpa using hemp)]
    rw [foldl_relevant_eq_filterMap s _ []]
    simp

/-- The stable descending sort really is sorted by descending score. -/
theorem sortByScoreDesc_sorted {β : Type} (l : List (β × ℚ)) :
    (sortByScoreDesc l).Pairwise (fun a b => b.2 ≤ a.2) := by
  haveI : IsTotal (β × ℚ) (fun a b => b.2 ≤ a.2) := ⟨fun a b => le_total b.2 a.2⟩
  haveI : IsTrans (β × ℚ) (fun a b => b.2 ≤ a.2) := ⟨fun a b c h1 h2 => le_trans h2 h1⟩
  exact List.sorted_insertionSort _ l

/-- When every candidate scores below the threshold the retained list is
empty. -/
theorem search_relevant_chunks_nil (s : SysState) (class_id : String) (q : Vec)
    (h : ∀ p ∈ s.vdb.search class_id q (max_chunks * 2), p.2 < similarity_threshold) :
    search_relevant_chunks s class_id q = [] := by
  rw [search_relevant_chunks_eq]
  have hnil : (s.vdb.search class_id q (max_chunks * 2)).filterMap
      (fun p => if similarity_threshold ≤ p.2
                then (s.rel.chunks.find? (fun ch => decide (ch.id = p.1))).map
                       (fun ch => (ch, p.2))
                else none) = [] := by
    rw [List.filterMap_eq_nil_iff]
    intro p hp
    rw [if_neg (not_le_of_lt (h p hp))]
  rw [hnil]
  simp [sortByScoreDesc]

/-- C5: from the up-to-ten search candidates, exactly those at or above
the similarity threshold (whose chunk row resolves) are retained, the
retained pairs are sorted by descending similarity, at most `max_chunks`
(five) are kept; and on the concrete state whose candidate scores are
0.9, 0.75, 0.65, 0.5 exactly the first two are retained. -/
theorem threshold_filter_and_rank :
    (∀ (s : SysState) (class_id : String) (q : Vec),
        search_relevant_chunks s class_id q =
          (sortByScoreDesc ((s.vdb.search class_id q (max_chunks * 2)).filterMap
            (fun p => if similarity_threshold ≤ p.2
                      then (s.rel.chunks.find? (fun ch => decide (ch.id = p.1))).map
                             (fun ch => (ch, p.2))
                      else none))).take max_chunks)
    ∧ (∀ (s : SysState) (class_id : String) (q : Vec) (p : DocumentChunk × ℚ),
        p ∈ search_relevant_chunks s class_id q → similarity_threshold ≤ p.2)
    ∧ (∀ (s : SysState) (class_id : String) (q : Vec),
        (search_relevant_chunks s class_id q).Pairwise (fun a b => b.2 ≤ a.2)
        ∧ (search_relevant_chunks s class_id q).length ≤ max_chunks)
    ∧ search_relevant_chunks exSys "math" [1]
        = [(exChunk "a" "d1" "alpha", 9/10), (exChunk "b" "d1" "beta", 3/4)] := by
  refine ⟨search_relevant_chunks_eq, ?_, ?_, ?_⟩
  · intro s class_id q p hp
    rw [search_relevant_chunks_eq] at hp
    have hp2 := List.mem_of_mem_take hp
    rw [sortByScoreDesc, List.mem_insertionSort] at hp2
    rcases List.mem_filterMap.mp hp2 with ⟨a, _, hfa⟩
    by_cases hth : similarity_threshold ≤ a.2
    · rw [if_pos hth] at hfa
      rcases Option.map_eq_some'.mp hfa with ⟨ch, _, hpa⟩
      rw [← hpa]
      exact hth
    · rw [if_neg hth] at hfa
      exact absurd hfa (Option.noConfusion)
  · intro s class_id q
    constructor
    · rw [search_relevant_chunks_eq]
      exact (sortByScoreDesc_sorted _).sublist (List.take_sublist _ _)
    · rw [search_relevant_chunks_eq]
      exact List.length_take_le _ _
  · norm_num [search_relevant_chunks, VectorDatabase.search, alookup, faissSearch,
      sortByScoreDesc, dot, exRel, exVdb, exChunk, exSys, similarity_threshold, max_chunks,
      List.find?, List.filterMap_cons, List.isEmpty_cons]

theorem threshold_filter_and_rank_witness :
    (exChunk "a" "d1" "alpha", (9 : ℚ)/10) ∈ search_relevant_chunks exSys "math" [1]
    ∧ similarity_threshold ≤ (9 : ℚ)/10 :=
  ⟨by norm_num [search_relevant_chunks, VectorDatabase.search, alookup, faissSearch,
      sortByScoreDesc, dot, exRel, exVdb, exChunk, exSys, similarity_threshold, max_chunks,
      List.find?, List.filterMap_cons, List.isEmpty_cons],
   threshold_filter_and_rank.2.1 exSys "math" [1] (exChunk "a" "d1" "alpha", (9 : ℚ)/10)
    (by norm_num [search_relevant_chunks, VectorDatabase.search, alookup, faissSearch,
      sortByScoreDesc, dot, exRel, exVdb, exChunk, exSys, similarity_threshold, max_chunks,
      List.find?, List.filterMap_cons, List.isEmpty_cons])⟩

/-- C6: for a query against an existing class, whenever no search
candidate reaches the similarity threshold — in particular when the
class's vector index is absent or empty, making the search empty —
`process_query` returns the fixed refusal answer with confidence 0, no
citations, no used documents, and success true. -/
theorem no_results_path (embed : String → Option Vec) (s : SysState)
    (query class_id student_id : String)
    (cls : Class) (hc : findClass s.rel class_id = some cls)
    (v : Vec) (hv : embed query = some v)
    (hlow : ∀ p ∈ s.vdb.search class_id v (max_chunks * 2), p.2 < similarity_threshold) :
    process_query embed s query class_id student_id =
      { answer := "I can't find this in the school materials. Please make sure your question relates to the course content provided by your teacher."
        citations := []
        used_documents := []
        confidence := 0
        success := true
        error := none } := by
  have hnil := search_relevant_chunks_nil s class_id v hlow
  simp [process_query, hc, hv, hnil, create_no_results_response]

theorem no_results_path_witness :
    findClass emptyIndexSys.rel "math" = some { id := "math", name := "Math 101", enabled := true }
    ∧ exEmbed "what is algebra" = some [1]
    ∧ (∀ p ∈ emptyIndexSys.vdb.search "math" [1] (max_chunks * 2), p.2 < similarity_threshold)
    ∧ process_query exEmbed emptyIndexSys "what is algebra" "math" "alice" =
      { answer := "I can't find this in the school materials. Please make sure your question relates to the course content provided by your teacher."
        citations := []
        used_documents := []
        confidence := 0
        success := true
        error := none } :=
  ⟨by decide, rfl, by decide,
   no_results_path exEmbed emptyIndexSys "what is algebra" "math" "alice"
    { id := "math", name := "Math 101", enabled := true } (by decide) [1] rfl (by decide)⟩

theorem sentence_fragment_filter_gt_ten_witness :
    "Hello wonderful world".toList ∈
        splitSentencesAux "Hello wonderful world".toList.length "Hello wonderful world".toList []
    ∧ 10 < (stripChars "Hello wonderful world".toList).length
    ∧ String.mk (stripChars "Hello wonderful world".toList) ∈
        split_into_sentences "Hello wonderful world" :=
  ⟨by decide, by decide,
   (sentence_fragment_filter_gt_ten "Hello wonderful world").2
     "Hello wonderful world".toList (by decide) (by decide)⟩

theorem findDocument_congr (db db' : DBState) (h : db.documents = db'.documents) (d : String) :
    findDocument db d = findDocument db' d := by
  unfold findDocument
  rw [h]

theorem findClass_congr (db db' : DBState) (h : db.classes = db'.classes) (c : String) :
    findClass db c = findClass db' c := by
  unfold findClass
  rw [h]

theorem chunksOfDocument_congr (db db' : DBState) (h : db.chunks = db'.chunks) (d : String) :
    chunksOfDocument db d = chunksOfDocument db' d := by
  unfold chunksOfDocument
  rw [h]

/-- Assign never changes the document, class or chunk tables. -/
theorem assign_static (embed : String → Option Vec) (s : SysState) (d c : String) :
    (assign_document_to_class embed s d c).2.rel.documents = s.rel.documents
    ∧ (assign_document_to_class embed s d c).2.rel.classes = s.rel.classes
    ∧ (assign_document_to_class embed s d c).2.rel.chunks = s.rel.chunks := by
  unfold assign_document_to_class
  split
  · split
    · exact ⟨rfl, rfl, rfl⟩
    · dsimp only
      split
      · exact ⟨rfl, rfl, rfl⟩
      · split
        · exact ⟨rfl, rfl, rfl⟩
        · exact ⟨rfl, rfl, rfl⟩
  · exact ⟨rfl, rfl, rfl⟩

/-- Remove never changes the document, class or chunk tables. -/
theorem remove_static (s : SysState) (d c : String) :
    (remove_document_from_class s d c).2.rel.documents = s.rel.documents
    ∧ (remove_document_from_class s d c).2.rel.classes = s.rel.classes
    ∧ (remove_document_from_class s d c).2.rel.chunks = s.rel.chunks := by
  unfold remove_document_from_class
  split
  · exact ⟨rfl, rfl, rfl⟩
  · exact ⟨rfl, rfl, rfl⟩

/-- Assign only grows the assignment table. -/
theorem assign_assignments_mono (embed : String → Option Vec) (s : SysState) (d c : String)
    (pr : String × String) (h : pr ∈ s.rel.assignments) :
    pr ∈ (assign_document_to_class embed s d c).2.rel.assignments := by
  unfold assign_document_to_class
  split
  · split
    · exact h
    · dsimp only
      split
      · exact List.mem_append_left _ h
      · split
        · exact List.mem_append_left _ h
        · exact List.mem_append_left _ h
  · exact h

/-- Any assignment pair present after an assign was present before or is
the assigned pair itself. -/
theorem assign_assignments_subset (embed : String → Option Vec) (s : SysState) (d c : String)
    (pr : String × String)
    (h : pr ∈ (assign_document_to_class embed s d c).2.rel.assignments) :
    pr ∈ s.rel.assignments ∨ pr = (d, c) := by
  unfold assign_document_to_class at h
  split at h
  · split at h
    · exact Or.inl h
    · dsimp only at h
      split at h
      · rcases List.mem_append.mp h with h' | h'
        · exact Or.inl h'
        · exact Or.inr (List.mem_singleton.mp h')
      · split at h
        · rcases List.mem_append.mp h with h' | h'
          · exact Or.inl h'
          · exact Or.inr (List.mem_singleton.mp h')
        · rcases List.mem_append.mp h with h' | h'
          · exact Or.inl h'
          · exact Or.inr (List.mem_singleton.mp h')
  · exact Or.inl h

/-- When both rows exist, the assigned pair is in the table afterwards,
whether or not the embedding step succeeded. -/
theorem assign_pair_mem (embed : String → Option Vec) (s : SysState) (d c : String)
    (hd : (findDocument s.rel d).isSome) (hc : (findClass s.rel c).isSome) :
    (d, c) ∈ (assign_document_to_class embed s d c).2.rel.assignments := by
  obtain ⟨doc, hd'⟩ := Option.isSome_iff_exists.mp hd
  obtain ⟨cls, hc'⟩ := Option.isSome_iff_exists.mp hc
  unfold assign_document_to_class
  simp only [hd', hc']
  by_cases hmem : (d, c) ∈ s.rel.assignments
  · rw [if_pos hmem]
    exact hmem
  · rw [if_neg hmem]
    split
    · exact List.mem_append_right _ (List.mem_singleton_self _)
    · split
      · exact List.mem_append_right _ (List.mem_singleton_self _)
      · exact List.mem_append_right _ (List.mem_singleton_self _)

/-- Remove only shrinks the assignment table. -/
theorem remove_assignments_subset (s : SysState) (d c : String) (pr : String × String)
    (h : pr ∈ (remove_document_from_class s d c).2.rel.assignments) :
    pr ∈ s.rel.assignments := by
  unfold remove_document_from_class at h
  split at h
  · exact List.mem_of_mem_erase h
  · exact h

/-- Remove keeps every assignment pair other than the removed one. -/
theorem remove_assignments_keep (s : SysState) (d c : String) (pr : String × String)
    (hne : pr ≠ (d, c)) (h : pr ∈ s.rel.assignments) :
    pr ∈ (remove_document_from_class s d c).2.rel.assignments := by
  unfold remove_document_from_class
  split
  · exact (List.mem_erase_of_ne hne).mpr h
  · exact h

/-- When both rows exist, remove reports success. -/
theorem remove_ok (s : SysState) (d c : String)
    (hd : (findDocument s.rel d).isSome) (hc : (findClass s.rel c).isSome) :
    (remove_document_from_class s d c).1 = true := by
  obtain ⟨doc, hd'⟩ := Option.isSome_iff_exists.mp hd
  obtain ⟨cls, hc'⟩ := Option.isSome_iff_exists.mp hc
  unfold remove_document_from_class
  simp only [hd', hc']

/-- When both rows exist, the pair is not yet assigned, the document has
chunks, and the embedding call fails, assign returns `False` — but the
relational assignment was already committed, and the vector database is
untouched. -/
theorem assign_fails (embed : String → Option Vec) (s : SysState) (d c : String)
    (hd : (findDocument s.rel d).isSome) (hc : (findClass s.rel c).isSome)
    (hnot : (d, c) ∉ s.rel.assignments)
    (hch : ¬(chunksOfDocument s.rel d).isEmpty)
    (hfail : ((chunksOfDocument s.rel d).map (fun ch => ch.content)).mapM embed = none) :
    (assign_document_to_class embed s d c).1 = false
    ∧ (assign_document_to_class embed s d c).2.rel.assignments
        = s.rel.assignments ++ [(d, c)]
    ∧ (assign_document_to_class embed s d c).2.vdb = s.vdb := by
  obtain ⟨doc, hd'⟩ := Option.isSome_iff_exists.mp hd
  obtain ⟨cls, hc'⟩ := Option.isSome_iff_exists.mp hc
  unfold assign_document_to_class
  simp only [hd', hc']
  rw [if_neg hnot]
  have hrw : chunksOfDocument
      { classes := s.rel.classes, documents := s.rel.documents, chunks := s.rel.chunks,
        student_access := s.rel.student_access, assignments := s.rel.assignments ++ [(d, c)] } d
      = chunksOfDocument s.rel d := chunksOfDocument_congr _ _ rfl d
  rw [hrw]
  rw [if_neg hch]
  rw [hfail]
  exact ⟨rfl, rfl, rfl⟩

/-- A migration step only appends to the failed list. -/
theorem migrate_step_failed_mono (embed : String → Option Vec) (fc tc : String)
    (mig fl : List String) (st : SysState) (doc : Document) (x : String) (hx : x ∈ fl) :
    x ∈ (migrate_step embed fc tc (mig, fl, st) doc).2.1 := by
  unfold migrate_step
  dsimp only
  split
  · split
    · exact hx
    · exact List.mem_append_left _ hx
  · exact List.mem_append_left _ hx

/-- A migration step keeps assignment pairs of other documents. -/
theorem migrate_step_pair_keep (embed : String → Option Vec) (fc tc : String)
    (mig fl : List String) (st : SysState) (doc : Document)
    (pr : String × String) (hne : pr.1 ≠ doc.id) (hpr : pr ∈ st.rel.assignments) :
    pr ∈ (migrate_step embed fc tc (mig, fl, st) doc).2.2.rel.assignments := by
  have h1 : pr ∈ (remove_document_from_class st doc.id fc).2.rel.assignments :=
    remove_assignments_keep st doc.id fc pr
      (by intro he; apply hne; rw [he]) hpr
  unfold migrate_step
  dsimp only
  split
  · split
    · exact assign_assignments_mono _ _ _ _ _ h1
    · exact assign_assignments_mono _ _ _ _ _ (assign_assignments_mono _ _ _ _ _ h1)
  · exact h1

/-- A migration step cannot introduce an assignment pair for another
document. -/
theorem migrate_step_pair_absent (embed : String → Option Vec) (fc tc : String)
    (mig fl : List String) (st : SysState) (doc : Document)
    (x c0 : String) (hne : x ≠ doc.id) (habs : (x, c0) ∉ st.rel.assignments) :
    (x, c0) ∉ (migrate_step embed fc tc (mig, fl, st) doc).2.2.rel.assignments := by
  intro hmem
  unfold migrate_step at hmem
  dsimp only at hmem
  split at hmem
  · split at hmem
    · rcases assign_assignments_subset _ _ _ _ _ hmem with h' | h'
      · exact habs (remove_assignments_subset _ _ _ _ h')
      · exact hne (congrArg Prod.fst h')
    · rcases assign_assignments_subset _ _ _ _ _ hmem with h' | h'
      · rcases assign_assignments_subset _ _ _ _ _ h' with h'' | h''
        · exact habs (remove_assignments_subset _ _ _ _ h'')
        · exact hne (congrArg Prod.fst h'')
      · exact hne (congrArg Prod.fst h')
  · exact habs (remove_assignments_subset _ _ _ _ hmem)

/-- A migration step keeps the document, class and chunk tables. -/
theorem migrate_step_static (embed : String → Option Vec) (fc tc : String)
    (mig fl : List String) (st : SysState) (doc : Document) :
    (migrate_step embed fc tc (mig, fl, st) doc).2.2.rel.documents = st.rel.documents
    ∧ (migrate_step embed fc tc (mig, fl, st) doc).2.2.rel.classes = st.rel.classes
    ∧ (migrate_step embed fc tc (mig, fl, st) doc).2.2.rel.chunks = st.rel.chunks := by
  unfold migrate_step
  dsimp only
  split
  · split
    · refine ⟨?_, ?_, ?_⟩
      · rw [(assign_static _ _ _ _).1, (remove_static _ _ _).1]
      · rw [(assign_static _ _ _ _).2.1, (remove_static _ _ _).2.1]
      · rw [(assign_static _ _ _ _).2.2, (remove_static _ _ _).2.2]
    · refine ⟨?_, ?_, ?_⟩
      · rw [(assign_static _ _ _ _).1, (assign_static _ _ _ _).1, (remove_static _ _ _).1]
      · rw [(assign_static _ _ _ _).2.1, (assign_static _ _ _ _).2.1,
          (remove_static _ _ _).2.1]
      · rw [(assign_static _ _ _ _).2.2, (assign_static _ _ _ _).2.2,
          (remove_static _ _ _).2.2]
  · exact ⟨(remove_static _ _ _).1, (remove_static _ _ _).2.1, (remove_static _ _ _).2.2⟩

/-- The compensating step: when the document row and both class rows
exist, the destination pair is not yet assigned, the document has chunks
and their embedding fails, the loop iteration reports the document failed
and restores its source assignment by the compensating assign call. -/
theorem migrate_step_compensates (embed : String → Option Vec) (fc tc : String)
    (mig fl : List String) (st : SysState) (doc : Document)
    (hd : (findDocument st.rel doc.id).isSome)
    (hfc : (findClass st.rel fc).isSome)
    (htc : (findClass st.rel tc).isSome)
    (hnot : (doc.id, tc) ∉ st.rel.assignments)
    (hch : ¬(chunksOfDocument st.rel doc.id).isEmpty)
    (hfail : ((chunksOfDocument st.rel doc.id).map (fun ch => ch.content)).mapM embed
        = none) :
    doc.id ∈ (migrate_step embed fc tc (mig, fl, st) doc).2.1
    ∧ (doc.id, fc) ∈ (migrate_step embed fc tc (mig, fl, st) doc).2.2.rel.assignments := by
  have hr1 : (remove_document_from_class st doc.id fc).1 = true := remove_ok st doc.id fc hd hfc
  have hsd : (remove_document_from_class st doc.id fc).2.rel.documents = st.rel.documents :=
    (remove_static _ _ _).1
  have hsc : (remove_document_from_class st doc.id fc).2.rel.classes = st.rel.classes :=
    (remove_static _ _ _).2.1
  have hsch : (remove_document_from_class st doc.id fc).2.rel.chunks = st.rel.chunks :=
    (remove_static _ _ _).2.2
  have hd2 : (findDocument (remove_document_from_class st doc.id fc).2.rel doc.id).isSome := by
    rw [findDocument_congr _ st.rel hsd]
    exact hd
  have htc2 : (findClass (remove_document_from_class st doc.id fc).2.rel tc).isSome := by
    rw [findClass_congr _ st.rel hsc]
    exact htc
  have hnot2 : (doc.id, tc) ∉ (remove_document_from_class st doc.id fc).2.rel.assignments :=
    fun hmem => hnot (remove_assignments_subset _ _ _ _ hmem)
  have hch2 : ¬(chunksOfDocument (remove_document_from_class st doc.id fc).2.rel doc.id).isEmpty := by
    rw [chunksOfDocument_congr _ st.rel hsch]
    exact hch
  have hfail2 : ((chunksOfDocument (remove_document_from_class st doc.id fc).2.rel doc.id).map
      (fun ch => ch.content)).mapM embed = none := by
    rw [chunksOfDocument_congr _ st.rel hsch]
    exact hfail
  have hafails := assign_fails embed (remove_document_from_class st doc.id fc).2 doc.id tc
    hd2 htc2 hnot2 hch2 hfail2
  have ha1 : ¬((assign_document_to_class embed (remove_document_from_class st doc.id fc).2
      doc.id tc).1 = true) := by
    rw [hafails.1]
    exact Bool.false_ne_true
  have hsd3 : (assign_document_to_class embed (remove_document_from_class st doc.id fc).2
      doc.id tc).2.rel.documents = st.rel.documents := by
    rw [(assign_static _ _ _ _).1, hsd]
  have hsc3 : (assign_document_to_class embed (remove_document_from_class st doc.id fc).2
      doc.id tc).2.rel.classes = st.rel.classes := by
    rw [(assign_static _ _ _ _).2.1, hsc]
  have hd3 : (findDocument (assign_document_to_class embed
      (remove_document_from_class st doc.id fc).2 doc.id tc).2.rel doc.id).isSome := by
    rw [findDocument_congr _ st.rel hsd3]
    exact hd
  have hfc3 : (findClass (assign_document_to_class embed
      (remove_document_from_class st doc.id fc).2 doc.id tc).2.rel fc).isSome := by
    rw [findClass_congr _ st.rel hsc3]
    exact hfc
  have hback := assign_pair_mem embed (assign_document_to_class embed
    (remove_document_from_class st doc.id fc).2 doc.id tc).2 doc.id fc hd3 hfc3
  unfold migrate_step
  dsimp only
  rw [if_pos hr1]
  rw [if_neg ha1]
  exact ⟨List.mem_append_right _ (List.mem_singleton_self _), hback⟩

/-- Once a document is recorded as failed with its source assignment in
place, the rest of the migration loop keeps both facts. -/
theorem migrate_fold_keep (embed : String → Option Vec) (fc tc : String) (dId : String) :
    ∀ (docs : List Document) (mig fl : List String) (st : SysState),
      (∀ doc ∈ docs, doc.id ≠ dId) →
      dId ∈ fl → (dId, fc) ∈ st.rel.assignments →
      dId ∈ (docs.foldl (migrate_step embed fc tc) (mig, fl, st)).2.1
      ∧ (dId, fc) ∈ (docs.foldl (migrate_step embed fc tc) (mig, fl, st)).2.2.rel.assignments := by
  intro docs
  induction docs with
  | nil =>
    intro mig fl st _ h1 h2
    exact ⟨h1, h2⟩
  | cons doc rest ih =>
    intro mig fl st hne h1 h2
    rw [List.foldl_cons]
    have hnerest : ∀ doc' ∈ rest, doc'.id ≠ dId :=
      fun doc' hd' => hne doc' (List.mem_cons_of_mem _ hd')
    have hdne : doc.id ≠ dId := hne doc (List.mem_cons_self _ _)
    have h1' : dId ∈ (migrate_step embed fc tc (mig, fl, st) doc).2.1 :=
      migrate_step_failed_mono embed fc tc mig fl st doc dId h1
    have h2' : (dId, fc) ∈ (migrate_step embed fc tc (mig, fl, st) doc).2.2.rel.assignments :=
      migrate_step_pair_keep embed fc tc mig fl st doc (dId, fc) (Ne.symm hdne) h2
    exact ih (migrate_step embed fc tc (mig, fl, st) doc).1
      (migrate_step embed fc tc (mig, fl, st) doc).2.1
      (migrate_step embed fc tc (mig, fl, st) doc).2.2 hnerest h1' h2'

/-- The migration loop compensates for the distinguished document whose
destination assignment must fail. -/
theorem migrate_fold_spec (embed : String → Option Vec) (fc tc : String) (s : SysState)
    (d : Document)
    (hdoc : (findDocument s.rel d.id).isSome)
    (hfc : (findClass s.rel fc).isSome) (htc : (findClass s.rel tc).isSome)
    (hch : ¬(chunksOfDocument s.rel d.id).isEmpty)
    (hfail : ((chunksOfDocument s.rel d.id).map (fun ch => ch.content)).mapM embed = none) :
    ∀ (docs : List Document) (mig fl : List String) (st : SysState),
      (docs.map Document.id).Nodup → d ∈ docs →
      st.rel.documents = s.rel.documents → st.rel.classes = s.rel.classes →
      st.rel.chunks = s.rel.chunks →
      (d.id, tc) ∉ st.rel.assignments →
      d.id ∈ (docs.foldl (migrate_step embed fc tc) (mig, fl, st)).2.1
      ∧ (d.id, fc) ∈ (docs.foldl (migrate_step embed fc tc) (mig, fl, st)).2.2.rel.assignments := by
  intro docs
  induction docs with
  | nil =>
    intro mig fl st _ hmem
    exact absurd hmem (List.not_mem_nil d)
  | cons doc rest ih =>
    intro mig fl st hnodup hmem hsd hsc hsch hnot
    rw [List.foldl_cons]
    have hnodup' := hnodup
    rw [List.map_cons, List.nodup_cons] at hnodup'
    rcases List.mem_cons.mp hmem with heq | hmem'
    · subst heq
      have hd1 : (findDocument st.rel d.id).isSome := by
        rw [findDocument_congr _ s.rel hsd]
        exact hdoc
      have hfc1 : (findClass st.rel fc).isSome := by
        rw [findClass_congr _ s.rel hsc]
        exact hfc
      have htc1 : (findClass st.rel tc).isSome := by
        rw [findClass_congr _ s.rel hsc]
        exact htc
      have hch1 : ¬(chunksOfDocument st.rel d.id).isEmpty := by
        rw [chunksOfDocument_congr _ s.rel hsch]
        exact hch
      have hfail1 : ((chunksOfDocument st.rel d.id).map (fun ch => ch.content)).mapM embed
          = none := by
        rw [chunksOfDocument_congr _ s.rel hsch]
        exact hfail
      have hstep := migrate_step_compensates embed fc tc mig fl st d hd1 hfc1 htc1 hnot
        hch1 hfail1
      have hnerest : ∀ doc' ∈ rest, doc'.id ≠ d.id := by
        intro doc' hd'
        intro hcontra
        exact hnodup'.1 (List.mem_map.mpr ⟨doc', hd', hcontra⟩)
      exact migrate_fold_keep embed fc tc d.id rest
        (migrate_step embed fc tc (mig, fl, st) d).1
        (migrate_step embed fc tc (mig, fl, st) d).2.1
        (migrate_step embed fc tc (mig, fl, st) d).2.2 hnerest hstep.1 hstep.2
    · have hdne : doc.id ≠ d.id := by
        intro hcontra
        exact hnodup'.1 (List.mem_map.mpr ⟨d, hmem', hcontra.symm⟩)
      have habs : (d.id, tc) ∉ (migrate_step embed fc tc (mig, fl, st) doc).2.2.rel.assignments :=
        migrate_step_pair_absent embed fc tc mig fl st doc d.id tc (Ne.symm hdne) hnot
      have hstat := migrate_step_static embed fc tc mig fl st doc
      exact ih (migrate_step embed fc tc (mig, fl, st) doc).1
        (migrate_step embed fc tc (mig, fl, st) doc).2.1
        (migrate_step embed fc tc (mig, fl, st) doc).2.2 hnodup'.2 hmem'
        (by rw [hstat.1, hsd]) (by rw [hstat.2.1, hsc]) (by rw [hstat.2.2, hsch]) habs

/-- C7: in `migrate_class_documents(C1, C2)`, every source document whose
removal succeeds but whose destination assignment fails (here: its chunks
exist, their embedding fails, and it was not already assigned to the
destination) is reported in the failed list and ends the migration still
relationally assigned to the source class — the compensating assign call
restored the assignment, so the document is not orphaned. -/
theorem migrate_compensates (embed : String → Option Vec) (s : SysState)
    (from_class_id to_class_id : String)
    (mig failed : List String) (s' : SysState)
    (hids : (s.rel.documents.map Document.id).Nodup)
    (hrun : migrate_class_documents embed s from_class_id to_class_id
        = (some (mig, failed), s'))
    (d : Document) (hd : d ∈ s.rel.documents)
    (hassigned : (d.id, from_class_id) ∈ s.rel.assignments)
    (hnotyet : (d.id, to_class_id) ∉ s.rel.assignments)
    (hch : ¬(chunksOfDocument s.rel d.id).isEmpty)
    (hfail : ((chunksOfDocument s.rel d.id).map (fun ch => ch.content)).mapM embed = none) :
    d.id ∈ failed ∧ (d.id, from_class_id) ∈ s'.rel.assignments := by
  unfold migrate_class_documents at hrun
  rcases hfc : findClass s.rel from_class_id with _ | fcls
  · rw [hfc] at hrun
    simp at hrun
  rcases htc : findClass s.rel to_class_id with _ | tcls
  · rw [hfc, htc] at hrun
    simp at hrun
  rw [hfc, htc] at hrun
  dsimp only at hrun
  have hmemd : d ∈ s.rel.documents.filter
      (fun dd => decide ((dd.id, from_class_id) ∈ s.rel.assignments)) :=
    List.mem_filter.mpr ⟨hd, by simpa using hassigned⟩
  have hnodup : ((s.rel.documents.filter
      (fun dd => decide ((dd.id, from_class_id) ∈ s.rel.assignments))).map Document.id).Nodup :=
    hids.sublist (List.Sublist.map _ (List.filter_sublist _))
  have hdoc : (findDocument s.rel d.id).isSome := by
    unfold findDocument
    rw [List.find?_isSome]
    exact ⟨d, hd, by simp⟩
  have hmain := migrate_fold_spec embed from_class_id to_class_id s d hdoc
    (by rw [hfc]; rfl) (by rw [htc]; rfl) hch hfail
    (s.rel.documents.filter (fun dd => decide ((dd.id, from_class_id) ∈ s.rel.assignments)))
    [] [] s hnodup hmemd rfl rfl rfl hnotyet
  have h2' := congrArg Prod.snd hrun
  have h0 := congrArg Prod.fst hrun
  dsimp only at h2' h0
  have h1' := congrArg Prod.snd (Option.some.inj h0)
  dsimp only at h1'
  constructor
  · rw [← h1']
    exact hmain.1
  · rw [← h2']
    exact hmain.2

theorem migrate_compensates_witness :
    (migSys.rel.documents.map Document.id).Nodup
    ∧ migrate_class_documents failingEmbed migSys "c1" "c2"
        = (some (([] : List String), ["d1"]), migFinal)
    ∧ { id := "d1", name := "Doc.pdf", file_type := "pdf" } ∈ migSys.rel.documents
    ∧ ("d1", "c1") ∈ migSys.rel.assignments
    ∧ ("d1", "c2") ∉ migSys.rel.assignments
    ∧ ¬(chunksOfDocument migSys.rel "d1").isEmpty
    ∧ ((chunksOfDocument migSys.rel "d1").map (fun ch => ch.content)).mapM failingEmbed = none
    ∧ ("d1" ∈ ["d1"] ∧ ("d1", "c1") ∈ migFinal.rel.assignments) :=
  ⟨by decide, by decide, by decide, by decide, by decide, by decide, by decide,
   migrate_compensates failingEmbed migSys "c1" "c2" [] ["d1"] migFinal
    (by decide) (by decide)
    { id := "d1", name := "Doc.pdf", file_type := "pdf" } (by decide) (by decide) (by decide)
    (by decide) (by decide)⟩

/-- A totally-succeeding effect maps every list to `some` of a list of the
same length. -/
theorem mapM_total {α β : Type} (f : α → Option β) (hf : ∀ a, (f a).isSome)
    (l : List α) : ∃ l', l.mapM f = some l' ∧ l'.length = l.length := by
  induction l with
  | nil => exact ⟨[], rfl, rfl⟩
  | cons a t ih =>
    obtain ⟨b, hb⟩ := Option.isSome_iff_exists.mp (hf a)
    obtain ⟨l', hl', hlen⟩ := ih
    refine ⟨b :: l', ?_, by simp [hlen]⟩
    rw [List.mapM_cons, hb, hl']
    rfl

theorem mem_chunksOfDocument (db : DBState) (d : String) (ch : DocumentChunk) :
    ch ∈ chunksOfDocument db d ↔ ch ∈ db.chunks ∧ ch.document_id = d := by
  simp [chunksOfDocument]

/-- Aligned adds preserve structural well-formedness. -/
theorem vdbwf_add (db : VectorDatabase) (c : String) (es : List Vec) (ids : List String)
    (hwf : VdbWF db) (hlen : ids.length ≤ es.length) :
    VdbWF (db.add_embeddings c es ids).2 := by
  rcases add_embeddings_spec db c es ids (hwf c).1 with ⟨_, hv, hm, hother, hs1, hs2⟩
  intro c'
  by_cases hc : c' = c
  · subst hc
    refine ⟨⟨fun _ => hs2, fun _ => hs1⟩, ?_⟩
    rw [hv, hm]
    simp only [List.length_append]
    have := (hwf c').2
    omega
  · rcases hother c' hc with ⟨h1, h2⟩
    constructor
    · rw [h1, h2]
      exact (hwf c').1
    · simp only [mappingOf, vecsOf, h1, h2]
      exact (hwf c').2

/-- Removal on a well-formed database: the index dictionary is untouched,
the target mapping is filtered, other classes are untouched, and key
presence is preserved. -/
theorem remove_vdb_char (db : VectorDatabase) (c d : String) (ids : List String)
    (hwf : VdbWF db) :
    (db.remove_document_embeddings c d ids).2.indexes = db.indexes
    ∧ mappingOf (db.remove_document_embeddings c d ids).2 c
        = (mappingOf db c).filter (fun x => decide (x ∉ ids))
    ∧ (∀ c' : String, c' ≠ c →
        alookup (db.remove_document_embeddings c d ids).2.chunk_mappings c'
          = alookup db.chunk_mappings c')
    ∧ ((alookup (db.remove_document_embeddings c d ids).2.chunk_mappings c).isSome
        ↔ (alookup db.chunk_mappings c).isSome) := by
  rcases h1 : alookup db.indexes c with _ | index
  · have h2 : alookup db.chunk_mappings c = none := by
      rcases h2 : alookup db.chunk_mappings c with _ | m
      · rfl
      · exfalso
        have := (hwf c).1.mpr (by rw [h2]; rfl)
        rw [h1] at this
        simp at this
    have hres : db.remove_document_embeddings c d ids = (true, db) := by
      simp [VectorDatabase.remove_document_embeddings, h1]
    rw [hres]
    refine ⟨rfl, ?_, fun c' _ => rfl, Iff.rfl⟩
    simp [mappingOf, h2]
  · have h2 : ∃ m, alookup db.chunk_mappings c = some m :=
      Option.isSome_iff_exists.mp ((hwf c).1.mp (by rw [h1]; rfl))
    rcases h2 with ⟨m, h2⟩
    rcases remove_document_embeddings_spec db c d ids index h1 m h2
      with ⟨_, hind, hmap, _, hother, hsome⟩
    refine ⟨hind, ?_, hother, ?_⟩
    · rw [hmap]
      simp [mappingOf, h2]
    · rw [h2]
      simp [hsome]

/-- Removal preserves structural well-formedness. -/
theorem vdbwf_remove (db : VectorDatabase) (c d : String) (ids : List String)
    (hwf : VdbWF db) : VdbWF (db.remove_document_embeddings c d ids).2 := by
  rcases remove_vdb_char db c d ids hwf with ⟨hind, hmap, hother, hsome⟩
  intro c'
  by_cases hc : c' = c
  · subst hc
    constructor
    · rw [hind, hsome]
      exact (hwf c').1
    · rw [hmap]
      have h1 : vecsOf (db.remove_document_embeddings c' d ids).2 c' = vecsOf db c' := by
        simp only [vecsOf, hind]
      rw [h1]
      calc ((mappingOf db c').filter (fun x => decide (x ∉ ids))).length
          ≤ (mappingOf db c').length := List.length_filter_le _ _
        _ ≤ (vecsOf db c').length := (hwf c').2
  · constructor
    · rw [hind, hother c' hc]
      exact (hwf c').1
    · simp only [mappingOf, vecsOf, hind, hother c' hc]
      exact (hwf c').2

/-- Successful-path characterisation of assign (both rows exist, pair not
yet assigned, embedding succeeds): the pair is appended and the vector
database gains the document's chunk embeddings (nothing when the document
has no chunks). -/
theorem assign_spec_ok (embed : String → Option Vec) (s : SysState) (d c : String)
    (hd : (findDocument s.rel d).isSome) (hc : (findClass s.rel c).isSome)
    (hmem : (d, c) ∉ s.rel.assignments)
    (es : List Vec)
    (hmapM : ((chunksOfDocument s.rel d).map (fun ch => ch.content)).mapM embed = some es) :
    (assign_document_to_class embed s d c).2.rel.assignments = s.rel.assignments ++ [(d, c)]
    ∧ (assign_document_to_class embed s d c).2.vdb
        = (if (chunksOfDocument s.rel d).isEmpty then s.vdb
           else (s.vdb.add_embeddings c es ((chunksOfDocument s.rel d).map (fun ch => ch.id))).2) := by
  obtain ⟨doc, hd'⟩ := Option.isSome_iff_exists.mp hd
  obtain ⟨cls, hc'⟩ := Option.isSome_iff_exists.mp hc
  unfold assign_document_to_class
  simp only [hd', hc']
  rw [if_neg hmem]
  have hrw : chunksOfDocument
      { classes := s.rel.classes, documents := s.rel.documents, chunks := s.rel.chunks,
        student_access := s.rel.student_access, assignments := s.rel.assignments ++ [(d, c)] } d
      = chunksOfDocument s.rel d := chunksOfDocument_congr _ _ rfl d
  rw [hrw]
  by_cases hemp : (chunksOfDocument s.rel d).isEmpty
  · rw [if_pos hemp, if_pos hemp]
    exact ⟨rfl, rfl⟩
  · rw [if_neg hemp, if_neg hemp]
    rw [hmapM]
    exact ⟨rfl, rfl⟩

/-- Field characterisation of a remove call whose rows exist. -/
theorem remove_result_fields (s : SysState) (d c : String)
    (hd : (findDocument s.rel d).isSome) (hc : (findClass s.rel c).isSome) :
    (remove_document_from_class s d c).2.rel.assignments = s.rel.assignments.erase (d, c)
    ∧ (remove_document_from_class s d c).2.vdb
        = (s.vdb.remove_document_embeddings c d
            ((chunksOfDocument s.rel d).map (fun ch => ch.id))).2 := by
  obtain ⟨doc, hd'⟩ := Option.isSome_iff_exists.mp hd
  obtain ⟨cls, hc'⟩ := Option.isSome_iff_exists.mp hc
  unfold remove_document_from_class
  simp only [hd', hc']
  have hrw : chunksOfDocument
      { classes := s.rel.classes, documents := s.rel.documents, chunks := s.rel.chunks,
        student_access := s.rel.student_access,
        assignments := s.rel.assignments.erase (d, c) } d
      = chunksOfDocument s.rel d := chunksOfDocument_congr _ _ rfl d
  rw [hrw]
  exact ⟨trivial, rfl⟩

/-- Assign preserves system well-formedness when the external embedding
model is available. -/
theorem syswf_assign (embed : String → Option Vec) (hembed : ∀ t, (embed t).isSome)
    (s : SysState) (hwf : SysWF s) (d c : String) :
    SysWF (assign_document_to_class embed s d c).2 := by
  rcases hwf with ⟨hv, hnd, hcnd, hinv⟩
  rcases hd : findDocument s.rel d with _ | doc
  · have hres : assign_document_to_class embed s d c = (false, s) := by
      unfold assign_document_to_class
      rw [hd]
    rw [hres]
    exact ⟨hv, hnd, hcnd, hinv⟩
  rcases hc : findClass s.rel c with _ | cls
  · have hres : assign_document_to_class embed s d c = (false, s) := by
      unfold assign_document_to_class
      rw [hd, hc]
    rw [hres]
    exact ⟨hv, hnd, hcnd, hinv⟩
  by_cases hmem : (d, c) ∈ s.rel.assignments
  · have hres : assign_document_to_class embed s d c = (true, s) := by
      unfold assign_document_to_class
      simp only [hd, hc]
      rw [if_pos hmem]
    rw [hres]
    exact ⟨hv, hnd, hcnd, hinv⟩
  obtain ⟨es, hmapM, hlen⟩ :=
    mapM_total embed hembed ((chunksOfDocument s.rel d).map (fun ch => ch.content))
  have hds : (findDocument s.rel d).isSome := by rw [hd]; rfl
  have hcs : (findClass s.rel c).isSome := by rw [hc]; rfl
  obtain ⟨hassign_eq, hvdb_eq⟩ := assign_spec_ok embed s d c hds hcs hmem es hmapM
  have hstatic := assign_static embed s d c
  have hndp : (s.rel.assignments ++ [(d, c)]).Nodup := by
    refine hnd.append (List.nodup_singleton _) ?_
    intro pr hpr hpr2
    rw [List.mem_singleton] at hpr2
    rw [hpr2] at hpr
    exact hmem hpr
  refine ⟨?_, ?_, ?_, ?_⟩
  · rw [hvdb_eq]
    by_cases hemp : (chunksOfDocument s.rel d).isEmpty
    · rw [if_pos hemp]
      exact hv
    · rw [if_neg hemp]
      apply vdbwf_add _ _ _ _ hv
      rw [List.length_map, hlen, List.length_map]
  · rw [hassign_eq]
    exact hndp
  · rw [hstatic.2.2]
    exact hcnd
  · intro c'' x
    rw [hstatic.2.2, hassign_eq, hvdb_eq]
    by_cases hemp : (chunksOfDocument s.rel d).isEmpty
    · rw [if_pos hemp]
      rw [hinv c'' x]
      constructor
      · rintro ⟨ch, hch, hid, hpair⟩
        exact ⟨ch, hch, hid, List.mem_append_left _ hpair⟩
      · rintro ⟨ch, hch, hid, hpair⟩
        rcases List.mem_append.mp hpair with h' | h'
        · exact ⟨ch, hch, hid, h'⟩
        · exfalso
          rw [List.mem_singleton] at h'
          have hchd : ch.document_id = d := congrArg Prod.fst h'
          have hmemch : ch ∈ chunksOfDocument s.rel d :=
            (mem_chunksOfDocument _ _ _).mpr ⟨hch, hchd⟩
          rw [List.isEmpty_iff] at hemp
          rw [hemp] at hmemch
          exact absurd hmemch (List.not_mem_nil ch)
    · rw [if_neg hemp]
      rcases add_embeddings_spec s.vdb c es ((chunksOfDocument s.rel d).map (fun ch => ch.id))
        (hv c).1 with ⟨_, _, hm, hother, _, _⟩
      by_cases hcc : c'' = c
      · subst hcc
        rw [hm, List.mem_append]
        constructor
        · rintro (hx | hx)
          · rcases (hinv c'' x).mp hx with ⟨ch, hch, hid, hpair⟩
            exact ⟨ch, hch, hid, List.mem_append_left _ hpair⟩
          · rcases List.mem_map.mp hx with ⟨ch, hchm, hid⟩
            rcases (mem_chunksOfDocument _ _ _).mp hchm with ⟨hch, hchd⟩
            refine ⟨ch, hch, hid, ?_⟩
            rw [hchd]
            exact List.mem_append_right _ (List.mem_singleton_self _)
        · rintro ⟨ch, hch, hid, hpair⟩
          rcases List.mem_append.mp hpair with h' | h'
          · exact Or.inl ((hinv c'' x).mpr ⟨ch, hch, hid, h'⟩)
          · rw [List.mem_singleton] at h'
            have hchd : ch.document_id = d := congrArg Prod.fst h'
            exact Or.inr (List.mem_map.mpr
              ⟨ch, (mem_chunksOfDocument _ _ _).mpr ⟨hch, hchd⟩, hid⟩)
      · have hmap_eq : mappingOf (s.vdb.add_embeddings c es
            ((chunksOfDocument s.rel d).map (fun ch => ch.id))).2 c''
            = mappingOf s.vdb c'' := by
          simp only [mappingOf, (hother c'' hcc).2]
        rw [hmap_eq, hinv c'' x]
        constructor
        · rintro ⟨ch, hch, hid, hpair⟩
          exact ⟨ch, hch, hid, List.mem_append_left _ hpair⟩
        · rintro ⟨ch, hch, hid, hpair⟩
          rcases List.mem_append.mp hpair with h' | h'
          · exact ⟨ch, hch, hid, h'⟩
          · exfalso
            rw [List.mem_singleton] at h'
            exact hcc (congrArg Prod.snd h')

/-- Remove preserves system well-formedness. -/
theorem syswf_remove (s : SysState) (hwf : SysWF s) (d c : String) :
    SysWF (remove_document_from_class s d c).2 := by
  rcases hwf with ⟨hv, hnd, hcnd, hinv⟩
  rcases hd : findDocument s.rel d with _ | doc
  · have hres : remove_document_from_class s d c = (false, s) := by
      unfold remove_document_from_class
      rw [hd]
    rw [hres]
    exact ⟨hv, hnd, hcnd, hinv⟩
  rcases hc : findClass s.rel c with _ | cls
  · have hres : remove_document_from_class s d c = (false, s) := by
      unfold remove_document_from_class
      rw [hd, hc]
    rw [hres]
    exact ⟨hv, hnd, hcnd, hinv⟩
  have hds : (findDocument s.rel d).isSome := by rw [hd]; rfl
  have hcs : (findClass s.rel c).isSome := by rw [hc]; rfl
  obtain ⟨ha_eq, hvdb_eq⟩ := remove_result_fields s d c hds hcs
  have hstatic := remove_static s d c
  rcases remove_vdb_char s.vdb c d ((chunksOfDocument s.rel d).map (fun ch => ch.id)) hv
    with ⟨hind, hmap, hother, hsome⟩
  refine ⟨?_, ?_, ?_, ?_⟩
  · rw [hvdb_eq]
    exact vdbwf_remove _ _ _ _ hv
  · rw [ha_eq]
    exact hnd.erase _
  · rw [hstatic.2.2]
    exact hcnd
  · intro c'' x
    rw [hstatic.2.2, ha_eq, hvdb_eq]
    by_cases hcc : c'' = c
    · subst hcc
      rw [hmap, List.mem_filter]
      constructor
      · rintro ⟨hx, hxn⟩
        have hxn' : x ∉ (chunksOfDocument s.rel d).map (fun ch => ch.id) :=
          of_decide_eq_true hxn
        rcases (hinv c'' x).mp hx with ⟨ch, hch, hid, hpair⟩
        refine ⟨ch, hch, hid, ?_⟩
        refine (List.mem_erase_of_ne ?_).mpr hpair
        intro hpe
        have hchd : ch.document_id = d := congrArg Prod.fst hpe
        exact hxn' (List.mem_map.mpr ⟨ch, (mem_chunksOfDocument _ _ _).mpr ⟨hch, hchd⟩, hid⟩)
      · rintro ⟨ch, hch, hid, hpair⟩
        have hpair' : (ch.document_id, c'') ∈ s.rel.assignments :=
          List.mem_of_mem_erase hpair
        refine ⟨(hinv c'' x).mpr ⟨ch, hch, hid, hpair'⟩, ?_⟩
        simp only [decide_eq_true_eq]
        intro hxin
        rcases List.mem_map.mp hxin with ⟨ch', hch', hid'⟩
        rcases (mem_chunksOfDocument _ _ _).mp hch' with ⟨hch'2, hchd'⟩
        have hcheq : ch' = ch :=
          List.inj_on_of_nodup_map hcnd hch'2 hch (by rw [hid', hid])
        rw [hcheq] at hchd'
        rw [hchd'] at hpair
        exact hnd.not_mem_erase hpair
    · have hmap_eq : mappingOf (s.vdb.remove_document_embeddings c d
          ((chunksOfDocument s.rel d).map (fun ch => ch.id))).2 c''
          = mappingOf s.vdb c'' := by
        simp only [mappingOf, hother c'' hcc]
      rw [hmap_eq, hinv c'' x]
      constructor
      · rintro ⟨ch, hch, hid, hpair⟩
        refine ⟨ch, hch, hid, (List.mem_erase_of_ne ?_).mpr hpair⟩
        intro hpe
        exact hcc (congrArg Prod.snd hpe)
      · rintro ⟨ch, hch, hid, hpair⟩
        exact ⟨ch, hch, hid, List.mem_of_mem_erase hpair⟩

/-- One isolation-service mutation preserves system well-formedness. -/
theorem syswf_step (embed : String → Option Vec) (hembed : ∀ t, (embed t).isSome)
    (s t : SysState) (hstep : IsoStep embed s t) (hwf : SysWF s) : SysWF t := by
  cases hstep with
  | assign d c => exact syswf_assign embed hembed s hwf d c
  | remove d c => exact syswf_remove s hwf d c

/-- Well-formedness propagates along any reachable mutation sequence. -/
theorem syswf_reachable (embed : String → Option Vec) (hembed : ∀ t, (embed t).isSome)
    (s0 s : SysState) (h0 : SysWF s0) (hr : Reachable embed s0 s) : SysWF s := by
  induction hr with
  | refl => exact h0
  | step t u hr hstep ih => exact syswf_step embed hembed t u hstep ih

/-- A state with unique chunk ids, no assignments and a fresh vector
database is well formed. -/
theorem syswf_start (rel : DBState) (hids : (rel.chunks.map DocumentChunk.id).Nodup)
    (hassign : rel.assignments = []) :
    SysWF { rel := rel, vdb := VectorDatabase.empty } := by
  refine ⟨?_, ?_, hids, ?_⟩
  · intro c
    simp [VectorDatabase.empty, alookup, mappingOf, vecsOf]
  · rw [hassign]
    exact List.nodup_nil
  · intro c x
    simp [VectorDatabase.empty, mappingOf, alookup, hassign]

/-- C1: over states reachable by isolation-service mutations from a
well-formed start, with the embedding model available, a chunk of document
`D` is retrievable via `search` on class `c`'s index exactly when `D` is
currently assigned to `c`; and in particular, after
`remove_document_from_class D c` (both rows existing) no search on `c`
returns a chunk id belonging to `D`. -/
theorem isolation_invariant (embed : String → Option Vec)
    (hembed : ∀ t, (embed t).isSome)
    (s0 s : SysState) (hwf0 : SysWF s0) (hreach : Reachable embed s0 s)
    (D c : String) (ch : DocumentChunk) (hch : ch ∈ s.rel.chunks)
    (hchd : ch.document_id = D) :
    (Retrievable s.vdb c ch.id ↔ (D, c) ∈ s.rel.assignments)
    ∧ ((findDocument s.rel D).isSome → (findClass s.rel c).isSome →
        ∀ (q : Vec) (k : Nat) (p : String × ℚ),
          p ∈ (remove_document_from_class s D c).2.vdb.search c q k →
          ∀ ch' ∈ (remove_document_from_class s D c).2.rel.chunks, ch'.id = p.1 →
            ch'.document_id ≠ D) := by
  have hwf := syswf_reachable embed hembed s0 s hwf0 hreach
  constructor
  · rw [retrievable_iff_mem_mapping s.vdb hwf.1 c ch.id]
    rw [hwf.2.2.2 c ch.id]
    constructor
    · rintro ⟨ch'', hch'', hid, hpair⟩
      have hcheq : ch'' = ch :=
        List.inj_on_of_nodup_map hwf.2.2.1 hch'' hch (by rw [hid])
      rw [hcheq] at hpair
      rw [hchd] at hpair
      exact hpair
    · intro hpair
      refine ⟨ch, hch, rfl, ?_⟩
      rw [hchd]
      exact hpair
  · intro hD hc q k p hp ch' hch' hid' hcontra
    have hwf' : SysWF (remove_document_from_class s D c).2 := syswf_remove s hwf D c
    have hmap := search_mem_mapping _ c q k p hp
    rcases (hwf'.2.2.2 c p.1).mp hmap with ⟨ch'', hch'', hid'', hpair⟩
    have hcheq : ch'' = ch' :=
      List.inj_on_of_nodup_map hwf'.2.2.1 hch'' hch' (by rw [hid'', hid'])
    rw [hcheq, hcontra] at hpair
    have ha_eq := (remove_result_fields s D c hD hc).1
    rw [ha_eq] at hpair
    exact hwf.2.1.not_mem_erase hpair

theorem isolation_invariant_witness :
    (∀ t, (exEmbed t).isSome)
    ∧ exChunk "a" "d1" "alpha" ∈ (assign_document_to_class exEmbed initSys "d1" "math").2.rel.chunks
    ∧ (Retrievable (assign_document_to_class exEmbed initSys "d1" "math").2.vdb "math"
          (exChunk "a" "d1" "alpha").id
        ↔ ("d1", "math") ∈ (assign_document_to_class exEmbed initSys "d1" "math").2.rel.assignments) :=
  ⟨fun _ => rfl, by decide,
   (isolation_invariant exEmbed (fun _ => rfl) initSys
     (assign_document_to_class exEmbed initSys "d1" "math").2
     (syswf_start _ (by decide) rfl)
     (Reachable.step initSys initSys (assign_document_to_class exEmbed initSys "d1" "math").2
       (Reachable.refl initSys) (IsoStep.assign initSys "d1" "math"))
     "d1" "math" (exChunk "a" "d1" "alpha") (by decide) rfl).1⟩

end SchoolCopilot
